import Mathlib

/-!
Shallow embedding of the BKGel gel-image analysis core
(src/services/imageAnalysis.ts) over exact rationals.

JS floating-point numbers are modelled as `ℚ` (exact arithmetic).  The
transcendental functions the source calls (`Math.exp`, `Math.sqrt`,
`Math.PI`) are abstracted into a `RealOps` parameter threaded through
every definition that needs them; all theorems below hold for every
choice of `RealOps`, and concrete witnesses instantiate it.
`Math.floor` is modelled by `Int.floor`, JS division by `ℚ` division
(with the usual `x / 0 = 0` convention of `ℚ`, reachable only on
degenerate inputs the theorems do not depend on).  JS arrays become
`List ℚ`; out-of-range reads default to `0` (the source never reads out
of range on the paths the claims are about).  `Array.prototype.sort` is
stable in JS; it is modelled by a stable insertion sort.
-/

namespace BKGel

/-- Abstract interface for the JS `Math` transcendentals used by the source. -/
structure RealOps where
  exp : ℚ → ℚ
  sqrt : ℚ → ℚ
  pi : ℚ

/-- Byte access into a pixel buffer, `data[i]` (out of range reads default to 0). -/
def px (data : List ℚ) (i : ℕ) : ℚ := data.getD i 0

/-- Byte access with an integer index (negative indices read as 0). -/
def pxZ (data : List ℚ) (i : ℤ) : ℚ := if 0 ≤ i then data.getD i.toNat 0 else 0

/-- Profile access, `profile[i]` with default 0. -/
def pAt (profile : List ℚ) (i : ℕ) : ℚ := profile.getD i 0

/-- Source `getGrayscaleValue`: luminance of the RGBA pixel starting at `index`,
optionally inverted (`255 - val`). -/
def getGrayscaleValue (data : List ℚ) (index : ℕ) (invert : Bool) : ℚ :=
  let val := 0.299 * px data index + 0.587 * px data (index + 1) + 0.114 * px data (index + 2)
  if invert then 255 - val else val

/-- `getGrayscaleValue` at an integer byte offset. -/
def getGrayscaleValueZ (data : List ℚ) (index : ℤ) (invert : Bool) : ℚ :=
  let val := 0.299 * pxZ data index + 0.587 * pxZ data (index + 1) + 0.114 * pxZ data (index + 2)
  if invert then 255 - val else val

/-- Minimum of a list of rationals (0 for the empty list, which the source
only meets on degenerate zero-size images). -/
def listMin : List ℚ → ℚ
  | [] => 0
  | h :: t => t.foldl min h

/-- Maximum of a list of rationals (0 for the empty list). -/
def listMax : List ℚ → ℚ
  | [] => 0
  | h :: t => t.foldl max h

/-- Source `gaussianSmooth`: 1-D Gaussian smoothing with a clamped-edge
kernel of the given window size (forced odd), sigma = radius / 3. -/
def gaussianSmooth (ops : RealOps) (data : List ℚ) (windowSize : ℕ) : List ℚ :=
  let kernelSize := if windowSize % 2 = 0 then windowSize + 1 else windowSize
  let radius := kernelSize / 2
  let sigma : ℚ := (radius : ℚ) / 3
  let gvals : List ℚ := (List.range kernelSize).map (fun k =>
    let x : ℚ := (k : ℚ) - (radius : ℚ)
    (1 / (ops.sqrt (2 * ops.pi) * sigma)) * ops.exp (-(x * x) / (2 * sigma * sigma)))
  let ksum := gvals.foldl (fun a b => a + b) 0
  let kernel := gvals.map (fun g => g / ksum)
  (List.range data.length).map (fun (i : ℕ) =>
    (List.range kernelSize).foldl (fun (val : ℚ) (k : ℕ) =>
      let offset : ℤ := (k : ℤ) - (radius : ℤ)
      let idx : ℤ := min (max ((i : ℤ) + offset) 0) ((data.length : ℤ) - 1)
      val + pxZ data idx * pAt kernel k) 0)

/-- Source `estimateBackground`: 1-D morphological opening (erosion then
dilation with the given radius) followed by Gaussian smoothing. -/
def estimateBackground (ops : RealOps) (data : List ℚ) (radius : ℕ) (smoothing : ℕ) : List ℚ :=
  let len := data.length
  let eroded := (List.range len).map (fun i =>
    let start := i - radius
    let stop := min (len - 1) (i + radius)
    ((List.range (stop + 1 - start)).map (fun j => pAt data (start + j))).foldl min (pAt data i))
  let opened := (List.range len).map (fun i =>
    let start := i - radius
    let stop := min (len - 1) (i + radius)
    ((List.range (stop + 1 - start)).map (fun j => pAt eroded (start + j))).foldl max (pAt eroded i))
  gaussianSmooth ops opened smoothing

/-- Downward while-loop `while (s > 0 && cond s) s--`; returns the final `s`. -/
def scanDown (cond : ℕ → Bool) : ℕ → ℕ
  | 0 => 0
  | n + 1 => if cond (n + 1) then scanDown cond n else n + 1

/-- Upward while-loop `while (cond e) e++`, run with explicit fuel
(always called with enough fuel for the loop's own bound to fire first). -/
def scanUp (cond : ℕ → Bool) : ℕ → ℕ → ℕ
  | 0, e => e
  | fuel + 1, e => if cond e then scanUp cond fuel (e + 1) else e

/-- Downward while-loop with a break:
`while (s > 0 && A s) { if (B s) break; s--; }`. -/
def scanDownBreak (A B : ℕ → Bool) : ℕ → ℕ
  | 0 => 0
  | n + 1 => if A (n + 1) then (if B (n + 1) then n + 1 else scanDownBreak A B n) else n + 1

/-- Upward while-loop with a break: `while (A e) { if (B e) break; e++; }`,
with explicit fuel. -/
def scanUpBreak (A B : ℕ → Bool) : ℕ → ℕ → ℕ
  | 0, e => e
  | fuel + 1, e => if A e then (if B e then e else scanUpBreak A B fuel (e + 1)) else e

/-- The `BackgroundMethod` string enum of `types.ts`. -/
inductive BackgroundMethod where
  | rollingBall
  | median
  | none
deriving DecidableEq, Repr

/-- The `GelSettings` record of `types.ts`. -/
structure GelSettings where
  autoDetectLanes : Bool
  numLanes : ℕ
  laneMargin : ℚ
  laneDetectionSensitivity : ℚ
  roiTop : ℚ
  roiBottom : ℚ
  roiLeft : ℚ
  roiRight : ℚ
  invertImage : Bool
  backgroundSubtractionMethod : BackgroundMethod
  backgroundRollingBallRadius : ℕ
  backgroundSmoothing : ℕ
  minPeakProminence : ℚ
  smoothing : ℕ
  minPeakDistance : ℚ
  noiseTolerance : ℚ
  bandBoundarySigma : ℚ
  showBackgroundProfile : Bool
deriving DecidableEq, Repr

/-- The `Rect` record of `types.ts` (integer pixel coordinates). -/
structure Rect where
  x : ℤ
  y : ℤ
  width : ℤ
  height : ℤ
deriving DecidableEq, Repr

/-- The `Band` record of `types.ts`.  Peak and boundary coordinates are
pixel rows (integers); volumes and mobilities are rationals. -/
structure Band where
  id : String
  laneIndex : ℕ
  yPeak : ℤ
  yStart : ℤ
  yEnd : ℤ
  volume : ℚ
  relativeMobility : ℚ
  isMainBand : Bool
  isExcluded : Bool
  isManual : Bool
deriving DecidableEq, Repr

/-- The `SmearRegion` record of `types.ts`. -/
structure SmearRegion where
  id : String
  yStart : ℕ
  yEnd : ℕ
  volume : ℚ
deriving DecidableEq, Repr

/-- The `LaneData` record of `types.ts`. -/
structure LaneData where
  index : ℕ
  rect : Rect
  rawProfile : List ℚ
  backgroundProfile : List ℚ
  netProfile : List ℚ
  bands : List Band
  smears : List SmearRegion
  totalLaneVolume : ℚ
  mainBandVolume : ℚ
  degradationVolume : ℚ
  integrityScore : ℚ
deriving DecidableEq, Repr

/-- Boundary override for one band (`bandAdjustments` entries). -/
structure BandAdjust where
  yStart : ℤ
  yEnd : ℤ
deriving DecidableEq, Repr

/-- The `ManualOverrides` record of `imageAnalysis.ts`; the record maps of
the source are modelled as functions. -/
structure ManualOverrides where
  excludedBands : List String
  mainBands : ℕ → Option String
  userBands : ℕ → List Band
  bandAdjustments : String → Option BandAdjust

/-- An `ImageData` value: width, height, and the RGBA byte buffer. -/
structure QImage where
  width : ℕ
  height : ℕ
  data : List ℚ
deriving Repr

/-- Default values used for out-of-range list reads. -/
def dRect : Rect := { x := 0, y := 0, width := 0, height := 0 }

/-- Default band value for out-of-range list reads. -/
def dBand : Band :=
  { id := "", laneIndex := 0, yPeak := 0, yStart := 0, yEnd := 0, volume := 0,
    relativeMobility := 0, isMainBand := false, isExcluded := false, isManual := false }

/-- Default smear value for out-of-range list reads. -/
def dSmear : SmearRegion := { id := "", yStart := 0, yEnd := 0, volume := 0 }

/-- Default lane value for out-of-range list reads. -/
def dLane : LaneData :=
  { index := 0, rect := dRect, rawProfile := [], backgroundProfile := [], netProfile := [],
    bands := [], smears := [], totalLaneVolume := 0, mainBandVolume := 0,
    degradationVolume := 0, integrityScore := 0 }

/-- Stable insert: the newcomer `x` goes after every already-placed element
`h` with `keepFirst h x = true` (JS comparator `cmp h x <= 0`). -/
def insertKeep (keepFirst : α → α → Bool) : α → List α → List α
  | x, [] => [x]
  | x, h :: t => if keepFirst h x then h :: insertKeep keepFirst x t else x :: h :: t

/-- Stable insertion sort, modelling the (stable) JS `Array.prototype.sort`. -/
def stableSort (keepFirst : α → α → Bool) (l : List α) : List α :=
  l.foldl (fun acc x => insertKeep keepFirst x acc) []

/-- The list `start, start+2, start+4, ...` of indices below `stop`
(a `for (i = start; i < stop; i += 2)` loop). -/
def every2 (start stop : ℕ) : List ℕ :=
  (List.range ((stop - start + 1) / 2)).map (fun k => start + 2 * k)

/-- Column projection of `autoDetectROI`: `xProfile[x]` accumulates the
inverted-or-not grayscale over the rows sampled with stride 2 (only even
columns are ever visited by the stride-2 scan; odd columns stay 0). -/
def roiXProfile (img : QImage) (invert : Bool) : List ℚ :=
  (List.range img.width).map (fun x =>
    if x % 2 = 0 then
      ((every2 0 img.height).map (fun y =>
        getGrayscaleValue img.data ((y * img.width + x) * 4) (!invert))).foldl (fun a b => a + b) 0
    else 0)

/-- Row projection of `autoDetectROI` (even rows accumulate, odd rows stay 0). -/
def roiYProfile (img : QImage) (invert : Bool) : List ℚ :=
  (List.range img.height).map (fun y =>
    if y % 2 = 0 then
      ((every2 0 img.width).map (fun x =>
        getGrayscaleValue img.data ((y * img.width + x) * 4) (!invert))).foldl (fun a b => a + b) 0
    else 0)

/-- The threshold `min + (max - min) * 0.15` that `findBounds` inside
`autoDetectROI` applies to a (smoothed) projection profile. -/
def findBoundsThreshold (profile : List ℚ) : ℚ :=
  listMin profile + (listMax profile - listMin profile) * 0.15

/-- The threshold `findBounds` uses for a given raw projection profile:
the profile is first Gaussian-smoothed with window 20. -/
def boundsThresholdOf (ops : RealOps) (rawProfile : List ℚ) : ℚ :=
  findBoundsThreshold (gaussianSmooth ops rawProfile 20)

/-- The `findBounds` helper of `autoDetectROI`: smooth the projection,
threshold it, and scan outward from the center (falling back to a full
scan when the center itself is below threshold). -/
def boundsOf (ops : RealOps) (rawProfile : List ℚ) : ℕ × ℕ :=
  let profile := gaussianSmooth ops rawProfile 20
  let length := profile.length
  let threshold := findBoundsThreshold profile
  let center := length / 2
  let start0 := scanDown (fun t => decide (pAt profile t > threshold)) center
  let end0 := scanUp (fun t => decide (t < length - 1) && decide (pAt profile t > threshold)) length center
  if start0 = center ∧ end0 = center then
    ((((List.range length).find? (fun i => decide (pAt profile i > threshold))).getD start0),
     (((List.range length).reverse.find? (fun i => decide (pAt profile i > threshold))).getD end0))
  else (start0, end0)

/-- The ROI percentages returned by `autoDetectROI`. -/
structure ROIResult where
  top : ℚ
  bottom : ℚ
  left : ℚ
  right : ℚ
deriving DecidableEq, Repr

/-- Rounding to one decimal, modelling `parseFloat(v.toFixed(1))`. -/
def round1 (q : ℚ) : ℚ := ((Int.floor (q * 10 + 0.5) : ℤ) : ℚ) / 10

/-- Source `autoDetectROI`: project, bound each axis, pad by 2%, and
return percentages of the full dimensions. -/
def autoDetectROI (ops : RealOps) (img : QImage) (invert : Bool) : ROIResult :=
  let xB := boundsOf ops (roiXProfile img invert)
  let yB := boundsOf ops (roiYProfile img invert)
  let padX := (Int.floor ((img.width : ℚ) * 0.02)).toNat
  let padY := (Int.floor ((img.height : ℚ) * 0.02)).toNat
  let safeStartX := xB.1 - padX
  let safeEndX := min img.width (xB.2 + padX)
  let safeStartY := yB.1 - padY
  let safeEndY := min img.height (yB.2 + padY)
  { left := round1 ((safeStartX : ℚ) / (img.width : ℚ) * 100),
    right := round1 (((img.width : ℚ) - (safeEndX : ℚ)) / (img.width : ℚ) * 100),
    top := round1 ((safeStartY : ℚ) / (img.height : ℚ) * 100),
    bottom := round1 (((img.height : ℚ) - (safeEndY : ℚ)) / (img.height : ℚ) * 100) }

/-- The dynamic threshold of `detectLanes`:
`0.2 * settings.laneDetectionSensitivity`. -/
def laneDetectionThreshold (s : GelSettings) : ℚ := 0.2 * s.laneDetectionSensitivity

/-- The per-column standard-deviation profile of `detectLanes` (rows
sampled with stride 2 over the middle 80% of the height). -/
def laneVarProfile (ops : RealOps) (width height : ℕ) (data : List ℚ) (s : GelSettings) : List ℚ :=
  let sampleTop := (Int.floor ((height : ℚ) * 0.1)).toNat
  let sampleBottom := (Int.floor ((height : ℚ) * 0.9)).toNat
  let ys := every2 sampleTop sampleBottom
  (List.range width).map (fun x =>
    let vals := ys.map (fun y => getGrayscaleValue data ((y * width + x) * 4) (!s.invertImage))
    let n := vals.length
    if 0 < n then
      let mean := vals.foldl (fun a b => a + b) 0 / (n : ℚ)
      let variance := (vals.map (fun v => v * v)).foldl (fun a b => a + b) 0 / (n : ℚ) - mean * mean
      ops.sqrt (max 0 variance)
    else 0)

/-- The smoothed, max-normalized column profile of `detectLanes`. -/
def laneNormProfile (ops : RealOps) (width height : ℕ) (data : List ℚ) (s : GelSettings) : List ℚ :=
  let smoothed := gaussianSmooth ops (laneVarProfile ops width height data s) 30
  let maxVal := listMax smoothed
  smoothed.map (fun v => v / maxVal)

/-- Column `i` passes the threshold-and-local-maximum test of the lane
peak loop in `detectLanes`. -/
def isLaneCandidate (ops : RealOps) (width height : ℕ) (data : List ℚ) (s : GelSettings)
    (i : ℕ) : Bool :=
  let np := laneNormProfile ops width height data s
  decide (pAt np i > laneDetectionThreshold s) &&
  decide (pAt np i > pAt np (i - 1)) && decide (pAt np i > pAt np (i + 1))

/-- Accepted lane-peak centers: candidates in `[10, width-10)` kept only if
farther than `width / 30` from the previously accepted center. -/
def laneCenters (ops : RealOps) (width height : ℕ) (data : List ℚ) (s : GelSettings) : List ℕ :=
  (List.range' 10 (width - 20)).foldl (fun cs i =>
    if isLaneCandidate ops width height data s i then
      match cs.getLast? with
      | Option.none => cs ++ [i]
      | Option.some c => if (i : ℚ) - (c : ℚ) > (width : ℚ) / 30 then cs ++ [i] else cs
    else cs) []

/-- Source `detectLanes`: variance profile, smoothing, normalized
thresholding, peak picking, and valley-based lane rectangles. -/
def detectLanes (ops : RealOps) (width height : ℕ) (data : List ℚ) (s : GelSettings) : List Rect :=
  let smoothed := gaussianSmooth ops (laneVarProfile ops width height data s) 30
  let maxVal := listMax smoothed
  if maxVal = 0 then [] else
  let np := laneNormProfile ops width height data s
  let centers := laneCenters ops width height data s
  if centers = [] then [] else
  (List.range centers.length).map (fun idx =>
    let center := centers.getD idx 0
    let left : ℚ :=
      if idx = 0 then
        let scan := scanDown (fun t => decide (pAt np t > pAt np center * 0.5)) center
        max 0 ((center : ℚ) - ((center : ℚ) - (scan : ℚ)) * 1.5)
      else ((centers.getD (idx - 1) 0 : ℚ) + (center : ℚ)) / 2
    let right : ℚ :=
      if idx = centers.length - 1 then
        let scan := scanUp (fun t => decide (t < width - 1) && decide (pAt np t > pAt np center * 0.5))
          width center
        min (width : ℚ) ((center : ℚ) + ((scan : ℚ) - (center : ℚ)) * 1.5)
      else ((center : ℚ) + (centers.getD (idx + 1) 0 : ℚ)) / 2
    let laneW := right - left
    let margin := laneW * (s.laneMargin / 100)
    { x := Int.floor (left + margin / 2), y := 0,
      width := Int.floor (laneW - margin), height := (height : ℤ) })

/-- A fitted Gaussian of `findBandsAndSmears`: mean index, height, sigma. -/
structure Gaussian where
  idx : ℕ
  height : ℚ
  sigma : ℚ
deriving DecidableEq, Repr

/-- Default Gaussian for out-of-range list reads. -/
def dGauss : Gaussian := { idx := 0, height := 0, sigma := 1 }

/-- Local-maximum candidates of `findBandsAndSmears`: indices in
`[2, len-2)` strictly above their two neighbors on each side and above
`noiseTolerance + minProminence`. -/
def peakCandidates (profile : List ℚ) (s : GelSettings) : List ℕ :=
  let len := profile.length
  let minProminence := s.minPeakProminence / 100 * 255
  (List.range' 2 (len - 4)).filter (fun i =>
    decide (pAt profile i > pAt profile (i - 1)) && decide (pAt profile i > pAt profile (i - 2)) &&
    decide (pAt profile i > pAt profile (i + 1)) && decide (pAt profile i > pAt profile (i + 2)) &&
    decide (pAt profile i > s.noiseTolerance + minProminence))

/-- Greedy distance filtering: candidates sorted by height descending
(stable), each accepted only if farther than `minDist` from every
already-accepted peak. -/
def acceptPeaks (profile : List ℚ) (minDist : ℚ) (cands : List ℕ) : List ℕ :=
  let sortedDesc := stableSort (fun a b => decide (pAt profile b ≤ pAt profile a)) cands
  sortedDesc.foldl (fun (acc : List ℕ) (q : ℕ) =>
    if acc.any (fun e => decide (|(q : ℚ) - (e : ℚ)| < minDist)) then acc else acc ++ [q]) []

/-- The final peak list of `findBandsAndSmears` (distance filtering only
when `minPeakDistance > 0`, then re-sorted ascending). -/
def finalPeaks (profile : List ℚ) (s : GelSettings) : List ℕ :=
  if s.minPeakDistance > 0 then
    stableSort (fun a b => decide (a ≤ b))
      (acceptPeaks profile s.minPeakDistance (peakCandidates profile s))
  else peakCandidates profile s

/-- Initial Gaussian for a peak: height at the peak, sigma from the
half-width at half-maximum (`fwhm / 2.355`, floored at 1, with the JS
`(rightX - leftX) || 2` fallback). -/
def mkGaussian (profile : List ℚ) (idx : ℕ) : Gaussian :=
  let len := profile.length
  let height := pAt profile idx
  let leftX := scanDown (fun t => decide (pAt profile t > height / 2)) idx
  let rightX := scanUp (fun t => decide (t < len - 1) && decide (pAt profile t > height / 2)) len idx
  let fwhm : ℚ := if rightX - leftX = 0 then 2 else (rightX : ℚ) - (leftX : ℚ)
  { idx := idx, height := height, sigma := max 1 (fwhm / 2.355) }

/-- The fitted Gaussians of a profile. -/
def gaussiansOf (profile : List ℚ) (s : GelSettings) : List Gaussian :=
  (finalPeaks profile s).map (mkGaussian profile)

/-- Weight of one Gaussian at sample `x` (zero outside 4 sigma). -/
def gaussWeight (ops : RealOps) (g : Gaussian) (x : ℕ) : ℚ :=
  if |(x : ℚ) - (g.idx : ℚ)| ≤ 4 * g.sigma then
    g.height * ops.exp (-0.5 * (((x : ℚ) - (g.idx : ℚ)) / g.sigma) ^ 2)
  else 0

/-- Sum of all Gaussians' weights at sample `x`. -/
def sumWeightsAt (ops : RealOps) (gs : List Gaussian) (x : ℕ) : ℚ :=
  (gs.map (fun g => gaussWeight ops g x)).foldl (fun a b => a + b) 0

/-- Soft-assignment volume of the `i`-th Gaussian: over every sample whose
profile value exceeds the noise floor, apportion the sample's intensity in
proportion to this Gaussian's weight over the total weight (guarded by
`sumWeights > 0.0001` and `weights[i] > 0`, as in the source loop). -/
def softVolume (ops : RealOps) (gs : List Gaussian) (noiseFloor : ℚ) (profile : List ℚ)
    (i : ℕ) : ℚ :=
  ((List.range profile.length).map (fun x =>
    if pAt profile x ≤ noiseFloor then 0
    else
      let sw := sumWeightsAt ops gs x
      let w := gaussWeight ops (gs.getD i dGauss) x
      if sw > 0.0001 ∧ w > 0 then pAt profile x * (w / sw) else 0)).foldl (fun a b => a + b) 0

/-- The modelled signal `modelSumProfile[x]`: the summed weights at `x`,
written only for samples above the noise floor with `sumWeights > 0.0001`. -/
def modelSumAt (ops : RealOps) (gs : List Gaussian) (noiseFloor : ℚ) (profile : List ℚ)
    (x : ℕ) : ℚ :=
  if pAt profile x ≤ noiseFloor then 0
  else
    let sw := sumWeightsAt ops gs x
    if sw > 0.0001 then sw else 0

/-- The residual `max(0, profile[x] - modelSumProfile[x])`. -/
def residueAt (ops : RealOps) (gs : List Gaussian) (noiseFloor : ℚ) (profile : List ℚ)
    (x : ℕ) : ℚ :=
  max 0 (pAt profile x - modelSumAt ops gs noiseFloor profile x)

/-- Band boundaries: scan outward from the peak while above the adaptive
threshold and within `bandBoundarySigma * sigma * 1.5`, breaking early
when the profile starts rising again. -/
def bandBoundaries (profile : List ℚ) (s : GelSettings) (g : Gaussian) : ℕ × ℕ :=
  let len := profile.length
  let adaptiveThreshold := max s.noiseTolerance (g.height * 0.05)
  let maxHalfWidth := s.bandBoundarySigma * g.sigma
  let start := scanDownBreak
    (fun t => decide (pAt profile t > adaptiveThreshold) &&
      decide ((g.idx : ℚ) - (t : ℚ) < maxHalfWidth * 1.5))
    (fun t => decide (1 < t) && decide (pAt profile (t - 1) > pAt profile t + s.noiseTolerance))
    g.idx
  let stop := scanUpBreak
    (fun e => decide (e < len - 1) && decide (pAt profile e > adaptiveThreshold) &&
      decide ((e : ℚ) - (g.idx : ℚ) < maxHalfWidth * 1.5))
    (fun e => decide (e < len - 2) && decide (pAt profile (e + 1) > pAt profile e + s.noiseTolerance))
    len g.idx
  (start, stop)

/-- The detected (non-manual) bands of a profile, volumes assigned by
soft assignment, before sorting. -/
def detectedBands (ops : RealOps) (profile : List ℚ) (laneIndex : ℕ) (s : GelSettings) :
    List Band :=
  let gs := gaussiansOf profile s
  (List.range gs.length).map (fun i =>
    let g := gs.getD i dGauss
    let se := bandBoundaries profile s g
    { id := "L" ++ toString laneIndex ++ "-B" ++ toString (i + 1),
      laneIndex := laneIndex,
      yPeak := (g.idx : ℤ), yStart := (se.1 : ℤ), yEnd := (se.2 : ℤ),
      volume := softVolume ops gs s.noiseTolerance profile i,
      relativeMobility := (g.idx : ℚ) / (profile.length : ℚ),
      isMainBand := false, isExcluded := false, isManual := false })

/-- One step of the left-to-right smear run scan over the residual. -/
def smearScanStep (res : ℕ → ℚ) (noiseFloor minSmearWidth minProminence : ℚ) (laneIndex : ℕ)
    (st : Option ℕ × List SmearRegion) (x : ℕ) : Option ℕ × List SmearRegion :=
  if res x > noiseFloor then
    match st.1 with
    | Option.none => (Option.some x, st.2)
    | Option.some _ => st
  else
    match st.1 with
    | Option.none => st
    | Option.some s0 =>
      let smearEnd := x - 1
      if (smearEnd : ℚ) - (s0 : ℚ) > minSmearWidth then
        let vol := ((List.range (smearEnd + 1 - s0)).map (fun k => res (s0 + k))).foldl
          (fun a b => a + b) 0
        let avgIntensity := vol / ((smearEnd : ℚ) - (s0 : ℚ) + 1)
        if vol > minProminence * 10 ∧ avgIntensity > noiseFloor * 1.5 then
          (Option.none, st.2 ++ [{ id := "L" ++ toString laneIndex ++ "-S" ++ toString (st.2.length + 1),
                                   yStart := s0, yEnd := smearEnd, volume := vol }])
        else (Option.none, st.2)
      else (Option.none, st.2)

/-- The result record of `findBandsAndSmears`. -/
structure DetectionResult where
  bands : List Band
  smears : List SmearRegion
deriving DecidableEq, Repr

/-- Source `findBandsAndSmears`: peak detection, Gaussian fitting,
soft-assignment volumes, band boundaries, and smear extraction from the
residual.  Bands are returned sorted by peak position; an above-noise
residual run is only emitted when a below-threshold sample ends it. -/
def findBandsAndSmears (ops : RealOps) (profile : List ℚ) (laneIndex : ℕ) (s : GelSettings) :
    DetectionResult :=
  let gs := gaussiansOf profile s
  let noiseFloor := s.noiseTolerance
  let minProminence := s.minPeakProminence / 100 * 255
  let bands := detectedBands ops profile laneIndex s
  let res := residueAt ops gs noiseFloor profile
  let scan := (List.range profile.length).foldl
    (smearScanStep res noiseFloor (s.minPeakDistance * 2) minProminence laneIndex)
    (Option.none, [])
  { bands := stableSort (fun a b => decide (a.yPeak ≤ b.yPeak)) bands, smears := scan.2 }

/-- Sum of `profile[k]` for `k = a .. b` (integer bounds; empty when `a > b`). -/
def profileSumZ (profile : List ℚ) (a b : ℤ) : ℚ :=
  ((List.range (b + 1 - a).toNat).map (fun (j : ℕ) => pxZ profile (a + (j : ℤ)))).foldl
    (fun x y => x + y) 0

/-- Crop left edge in pixels: `floor(roiLeft / 100 * width)`. -/
def cropXOf (img : QImage) (s : GelSettings) : ℤ := Int.floor (s.roiLeft / 100 * (img.width : ℚ))

/-- Crop top edge in pixels. -/
def cropYOf (img : QImage) (s : GelSettings) : ℤ := Int.floor (s.roiTop / 100 * (img.height : ℚ))

/-- Cropped width in pixels: `floor((100 - roiRight - roiLeft) / 100 * width)`. -/
def cropWOf (img : QImage) (s : GelSettings) : ℤ :=
  Int.floor ((100 - s.roiRight - s.roiLeft) / 100 * (img.width : ℚ))

/-- Cropped height in pixels. -/
def cropHOf (img : QImage) (s : GelSettings) : ℤ :=
  Int.floor ((100 - s.roiBottom - s.roiTop) / 100 * (img.height : ℚ))

/-- The cropped RGBA buffer copied row by row from the original image. -/
def croppedDataOf (img : QImage) (s : GelSettings) : List ℚ :=
  (List.range (cropHOf img s).toNat).flatMap (fun (y : ℕ) =>
    (List.range ((cropWOf img s).toNat * 4)).map (fun (i : ℕ) =>
      pxZ img.data (((cropYOf img s + (y : ℤ)) * (img.width : ℤ) + cropXOf img s) * 4 + (i : ℤ))))

/-- The uniform-grid fallback lane rectangles: `numLanes` equal-width
rectangles shrunk by the lane margin (centered), spanning the full height. -/
def fallbackRects (width height : ℕ) (s : GelSettings) : List Rect :=
  let laneWidth : ℚ := (width : ℚ) / (s.numLanes : ℚ)
  let effectiveLaneWidth := laneWidth * (1 - s.laneMargin / 100)
  let marginPx := (laneWidth - effectiveLaneWidth) / 2
  (List.range s.numLanes).map (fun (i : ℕ) =>
    { x := Int.floor ((i : ℚ) * laneWidth + marginPx), y := 0,
      width := Int.floor effectiveLaneWidth, height := (height : ℤ) })

/-- The auto-detected lane rectangles (empty when auto-detection is off). -/
def autoRectsOf (ops : RealOps) (img : QImage) (s : GelSettings) : List Rect :=
  if s.autoDetectLanes = true then
    detectLanes ops (cropWOf img s).toNat (cropHOf img s).toNat (croppedDataOf img s) s
  else []

/-- The lane rectangles `processGelImage` works with: auto-detected when
enabled, with the uniform grid as fallback when disabled or empty. -/
def laneRectsOf (ops : RealOps) (img : QImage) (s : GelSettings) : List Rect :=
  if s.autoDetectLanes = false ∨ autoRectsOf ops img s = [] then
    fallbackRects (cropWOf img s).toNat (cropHOf img s).toNat s
  else autoRectsOf ops img s

/-- The per-row mean profile of a lane rectangle (inversion per settings:
the source passes `!settings.invertImage` to the sampler). -/
def laneRawProfile (data : List ℚ) (width : ℕ) (rect : Rect) (s : GelSettings) : List ℚ :=
  (List.range rect.height.toNat).map (fun (y : ℕ) =>
    let rowSum := ((List.range rect.width.toNat).map (fun (x : ℕ) =>
      getGrayscaleValueZ data (((rect.y + (y : ℤ)) * (width : ℤ) + (rect.x + (x : ℤ))) * 4)
        (!s.invertImage))).foldl (fun a b => a + b) 0
    rowSum / (rect.width : ℚ))

/-- The smoothed raw profile of a lane (this is what the source stores in
the returned `rawProfile` field). -/
def laneSmoothedRaw (ops : RealOps) (data : List ℚ) (width : ℕ) (rect : Rect)
    (s : GelSettings) : List ℚ :=
  gaussianSmooth ops (laneRawProfile data width rect s) s.smoothing

/-- The background profile of a lane. -/
def laneBackgroundOf (ops : RealOps) (data : List ℚ) (width : ℕ) (rect : Rect)
    (s : GelSettings) : List ℚ :=
  estimateBackground ops (laneSmoothedRaw ops data width rect s)
    s.backgroundRollingBallRadius s.backgroundSmoothing

/-- The net profile of a lane: `max(0, smoothedRaw - background)` pointwise. -/
def laneNetProfile (ops : RealOps) (data : List ℚ) (width : ℕ) (rect : Rect)
    (s : GelSettings) : List ℚ :=
  let sm := laneSmoothedRaw ops data width rect s
  let bg := laneBackgroundOf ops data width rect s
  (List.range sm.length).map (fun i => max 0 (pAt sm i - pAt bg i))

/-- Detected bands plus the caller's manual bands for the lane (manual
bands are clamped and get their volume recomputed as a direct profile
sum), sorted by peak position. -/
def laneSortedBands (ops : RealOps) (data : List ℚ) (width : ℕ) (s : GelSettings)
    (ov : ManualOverrides) (laneIndex : ℕ) (rect : Rect) : List Band :=
  let net := laneNetProfile ops data width rect s
  let len : ℤ := (net.length : ℤ)
  let detected := (findBandsAndSmears ops net laneIndex s).bands
  let manuals := (ov.userBands laneIndex).map (fun ub =>
    let yS := max 0 ub.yStart
    let yE := min (len - 1) ub.yEnd
    { ub with
      yStart := yS, yEnd := yE,
      volume := profileSumZ net yS yE,
      relativeMobility := (ub.yPeak : ℚ) / (rect.height : ℚ),
      isExcluded := false })
  stableSort (fun a b => decide (a.yPeak ≤ b.yPeak)) (detected ++ manuals)

/-- The lane's bands after applying boundary adjustments and the exclusion
set; every band's volume is recomputed as the direct sum of the net
profile over its (possibly adjusted) window. -/
def laneAdjustedBands (ops : RealOps) (data : List ℚ) (width : ℕ) (s : GelSettings)
    (ov : ManualOverrides) (laneIndex : ℕ) (rect : Rect) : List Band :=
  let net := laneNetProfile ops data width rect s
  let len : ℤ := (net.length : ℤ)
  (laneSortedBands ops data width s ov laneIndex rect).map (fun b =>
    match ov.bandAdjustments b.id with
    | Option.some adj =>
      let yS := max 0 adj.yStart
      let yE := min (len - 1) adj.yEnd
      { b with
        yStart := yS, yEnd := yE, volume := profileSumZ net yS yE,
        isExcluded := ov.excludedBands.contains b.id }
    | Option.none =>
      { b with
        volume := profileSumZ net b.yStart b.yEnd,
        isExcluded := ov.excludedBands.contains b.id })

/-- The non-excluded bands of the lane. -/
def laneActiveBands (ops : RealOps) (data : List ℚ) (width : ℕ) (s : GelSettings)
    (ov : ManualOverrides) (laneIndex : ℕ) (rect : Rect) : List Band :=
  (laneAdjustedBands ops data width s ov laneIndex rect).filter (fun b => !b.isExcluded)

/-- Main-band selection: the forced id when it resolves to a non-excluded
band, otherwise the non-excluded band of maximum volume (later bands win
ties, as in the source's `reduce`), none when no active band exists. -/
def laneMainBandOf (ops : RealOps) (data : List ℚ) (width : ℕ) (s : GelSettings)
    (ov : ManualOverrides) (laneIndex : ℕ) (rect : Rect) : Option Band :=
  let active := laneActiveBands ops data width s ov laneIndex rect
  let forced := (ov.mainBands laneIndex).bind (fun fid => active.find? (fun b => b.id == fid))
  match forced with
  | Option.some mb => Option.some mb
  | Option.none =>
    match active with
    | [] => Option.none
    | h :: t => Option.some (t.foldl (fun prev cur => if prev.volume > cur.volume then prev else cur) h)

/-- The banded/degradation volume rollup: active bands and smears at or
before the main band's peak count as banded, the rest as degradation;
with no main band the whole lane volume counts as degradation. -/
def laneVolumePair (ops : RealOps) (data : List ℚ) (width : ℕ) (s : GelSettings)
    (ov : ManualOverrides) (laneIndex : ℕ) (rect : Rect) : ℚ × ℚ :=
  let net := laneNetProfile ops data width rect s
  let totalVol := net.foldl (fun a b => a + b) 0
  let active := laneActiveBands ops data width s ov laneIndex rect
  let smears := (findBandsAndSmears ops net laneIndex s).smears
  match laneMainBandOf ops data width s ov laneIndex rect with
  | Option.none => (0, totalVol)
  | Option.some mb =>
    let p1 := active.foldl (fun (acc : ℚ × ℚ) b =>
      if b.yPeak ≤ mb.yPeak then (acc.1 + b.volume, acc.2) else (acc.1, acc.2 + b.volume)) (0, 0)
    smears.foldl (fun (acc : ℚ × ℚ) sm =>
      if ((sm.yStart : ℚ) + (sm.yEnd : ℚ)) / 2 ≤ (mb.yPeak : ℚ) then (acc.1 + sm.volume, acc.2)
      else (acc.1, acc.2 + sm.volume)) p1

/-- The integrity score: `banded / (banded + degradation) * 100` when a
main band exists and the denominator is positive, 0 otherwise. -/
def laneScore (ops : RealOps) (data : List ℚ) (width : ℕ) (s : GelSettings)
    (ov : ManualOverrides) (laneIndex : ℕ) (rect : Rect) : ℚ :=
  let pair := laneVolumePair ops data width s ov laneIndex rect
  if 0 < pair.1 + pair.2 ∧ (laneMainBandOf ops data width s ov laneIndex rect).isSome then
    pair.1 / (pair.1 + pair.2) * 100
  else 0

/-- Assembling one `LaneData` record for a lane rectangle, exactly as the
per-lane body of `processGelImage` does. -/
def buildLane (ops : RealOps) (data : List ℚ) (width : ℕ) (cropX cropY : ℤ) (s : GelSettings)
    (ov : ManualOverrides) (laneIndex : ℕ) (rect : Rect) : LaneData :=
  let net := laneNetProfile ops data width rect s
  let adjusted := laneAdjustedBands ops data width s ov laneIndex rect
  let finalBands :=
    match laneMainBandOf ops data width s ov laneIndex rect with
    | Option.some mb => adjusted.map (fun b => { b with isMainBand := b.id == mb.id })
    | Option.none => adjusted
  let pair := laneVolumePair ops data width s ov laneIndex rect
  { index := laneIndex,
    rect := { x := rect.x + cropX, y := rect.y + cropY, width := rect.width, height := rect.height },
    rawProfile := laneSmoothedRaw ops data width rect s,
    backgroundProfile := laneBackgroundOf ops data width rect s,
    netProfile := net,
    bands := finalBands,
    smears := (findBandsAndSmears ops net laneIndex s).smears,
    totalLaneVolume := net.foldl (fun a b => a + b) 0,
    mainBandVolume := pair.1,
    degradationVolume := pair.2,
    integrityScore := laneScore ops data width s ov laneIndex rect }

/-- Source `processGelImage`: crop to the configured ROI (returning no
lanes when the crop collapses), choose lane rectangles, and build one
`LaneData` per rectangle (lane indices start at 1). -/
def processGelImage (ops : RealOps) (img : QImage) (s : GelSettings) (ov : ManualOverrides) :
    List LaneData :=
  if cropWOf img s ≤ 0 ∨ cropHOf img s ≤ 0 then [] else
  let width := (cropWOf img s).toNat
  let data := croppedDataOf img s
  let rects := laneRectsOf ops img s
  (List.range rects.length).map (fun i =>
    buildLane ops data width (cropXOf img s) (cropYOf img s) s ov (i + 1) (rects.getD i dRect))

/-- Settings with only the lane-detection sensitivity replaced. -/
def setSens (s : GelSettings) (q : ℚ) : GelSettings := { s with laneDetectionSensitivity := q }

/-- Undo the display shift `processGelImage` applies to a lane rectangle
(`displayRect` adds the crop offsets to `x` and `y`). -/
def unshiftRect (r : Rect) (cropX cropY : ℤ) : Rect :=
  { x := r.x - cropX, y := r.y - cropY, width := r.width, height := r.height }

/-- Modelled from the spec: a synthetic two-mode intensity histogram with
70% of the pixel mass at grayscale 20 and 30% at grayscale 200. -/
def isTwoModeHistogram (img : QImage) : Prop :=
  ((List.range (img.width * img.height)).filter
    (fun i => decide (getGrayscaleValue img.data (i * 4) false = 20))).length * 10 =
      img.width * img.height * 7 ∧
  ((List.range (img.width * img.height)).filter
    (fun i => decide (getGrayscaleValue img.data (i * 4) false = 200))).length * 10 =
      img.width * img.height * 3

/-- A concrete `RealOps` instance used by the closed witnesses below
(`exp` and `sqrt` constantly 1, so Gaussian kernels become uniform). -/
def opsU : RealOps := { exp := fun _ => 1, sqrt := fun _ => 1, pi := 3 }

/-- Empty manual overrides. -/
def ov0 : ManualOverrides :=
  { excludedBands := [], mainBands := fun _ => Option.none,
    userBands := fun _ => [], bandAdjustments := fun _ => Option.none }

/-- One grayscale RGBA pixel with full alpha. -/
def rawRow (v : ℚ) : List ℚ := [v, v, v, 255]

/-- Concrete settings: fixed single-lane grid, rolling-ball radius 10,
smoothing 2, noise tolerance 5, prominence 2%, boundary sigma 3. -/
def sA : GelSettings :=
  { autoDetectLanes := false, numLanes := 1, laneMargin := 0, laneDetectionSensitivity := 1,
    roiTop := 0, roiBottom := 0, roiLeft := 0, roiRight := 0, invertImage := true,
    backgroundSubtractionMethod := BackgroundMethod.rollingBall,
    backgroundRollingBallRadius := 10, backgroundSmoothing := 2,
    minPeakProminence := 2, smoothing := 2, minPeakDistance := 2,
    noiseTolerance := 5, bandBoundarySigma := 3, showBackgroundProfile := false }

/-- A 1-by-20 image whose column holds a single band-shaped bump; its net
profile is `[0,0,0,0,0,3,3,3,10,30,40,30,10,0,...]` under `sA` and `opsU`. -/
def img1 : QImage :=
  { width := 1, height := 20,
    data := ([0, 0, 0, 0, 0, 0, 9, 0, 0, 30, 60, 30, 0, 0, 0, 0, 0, 0, 0, 0] : List ℚ).flatMap rawRow }

/-- A 2-by-20 image realizing the spec's synthetic two-mode histogram:
28 pixels at intensity 20 (70%), 12 at 200 (30%). -/
def img4 : QImage :=
  { width := 2, height := 20,
    data := (List.range 20).flatMap (fun y =>
      (List.range 2).flatMap (fun _ => rawRow (if y < 14 then 20 else 200))) }

/-- A 1-by-2 image with a black row over a white row. -/
def img8 : QImage := { width := 1, height := 2, data := rawRow 0 ++ rawRow 255 }

/-- An all-black 2-by-2 image. -/
def img0 : QImage := { width := 2, height := 2, data := (List.range 4).flatMap (fun _ => rawRow 0) }

/-- A caller-supplied manual band whose `yPeak` lies far outside the profile. -/
def badBand : Band :=
  { id := "M1", laneIndex := 1, yPeak := 500, yStart := 0, yEnd := 1, volume := 0,
    relativeMobility := 0, isMainBand := false, isExcluded := false, isManual := true }

/-- Overrides adding `badBand` as a manual band of lane 1. -/
def ovC2 : ManualOverrides :=
  { excludedBands := [], mainBands := fun _ => Option.none,
    userBands := fun i => if i = 1 then [badBand] else [], bandAdjustments := fun _ => Option.none }

/-- A profile that is a flat above-noise run terminated by zeros: it has
no local maxima, so its residual equals the profile and yields one smear. -/
def p10 : List ℚ := [50, 50, 50, 50, 50, 50, 50, 50, 50, 0, 0, 0]

-- Batteries marks the `Rat` arithmetic operations `@[irreducible]`;
-- re-enable unfolding so that closed witnesses evaluate by `decide`.
attribute [local semireducible] Rat.add Rat.mul Rat.sub Rat.inv Rat.ofScientific

instance (img : QImage) : Decidable (isTwoModeHistogram img) := by
  unfold isTwoModeHistogram
  exact inferInstance

set_option maxRecDepth 100000

set_option maxHeartbeats 4000000

theorem getD_mem_of_lt {α : Type _} (l : List α) (n : ℕ) (d : α) (h : n < l.length) :
    l.getD n d ∈ l := by
  rw [List.getD_eq_getElem?_getD, List.getElem?_eq_getElem h]
  exact List.getElem_mem h

theorem getD_eq_or_mem {α : Type _} (l : List α) (n : ℕ) (d : α) :
    l.getD n d = d ∨ l.getD n d ∈ l := by
  rcases Nat.lt_or_ge n l.length with h | h
  · exact Or.inr (getD_mem_of_lt l n d h)
  · left
    rw [List.getD_eq_getElem?_getD, List.getElem?_eq_none h]
    rfl

theorem foldl_add_nonneg (l : List ℚ) (init : ℚ) (h0 : 0 ≤ init) (h : ∀ q ∈ l, 0 ≤ q) :
    0 ≤ l.foldl (fun a b => a + b) init := by
  induction l generalizing init with
  | nil => simpa using h0
  | cons x t ih =>
    simp only [List.foldl_cons]
    exact ih (init + x) (by have := h x (List.mem_cons_self x t); linarith)
      (fun q hq => h q (List.mem_cons_of_mem _ hq))

theorem mem_insertKeep {α : Type _} (keep : α → α → Bool) (x y : α) (l : List α) :
    y ∈ insertKeep keep x l ↔ y = x ∨ y ∈ l := by
  induction l with
  | nil => simp [insertKeep]
  | cons h t ih =>
    by_cases hk : keep h x = true
    · simp only [insertKeep, if_pos hk, List.mem_cons, ih]
      tauto
    · simp [insertKeep, if_neg hk]

theorem mem_stableSort {α : Type _} (keep : α → α → Bool) (l : List α) (y : α) :
    y ∈ stableSort keep l ↔ y ∈ l := by
  have key : ∀ (l acc : List α), y ∈ l.foldl (fun a x => insertKeep keep x a) acc ↔
      y ∈ acc ∨ y ∈ l := by
    intro l
    induction l with
    | nil => simp
    | cons h t ih =>
      intro acc
      simp only [List.foldl_cons, ih, mem_insertKeep, List.mem_cons]
      tauto
  simpa [stableSort] using key l []

theorem scanDown_le (cond : ℕ → Bool) (n : ℕ) : scanDown cond n ≤ n := by
  induction n with
  | zero => simp [scanDown]
  | succ m ih =>
    by_cases h : cond (m + 1) = true
    · simp only [scanDown, if_pos h]
      omega
    · simp [scanDown, if_neg h]

theorem scanDownBreak_le (A B : ℕ → Bool) (n : ℕ) : scanDownBreak A B n ≤ n := by
  induction n with
  | zero => simp [scanDownBreak]
  | succ m ih =>
    by_cases hA : A (m + 1) = true
    · by_cases hB : B (m + 1) = true
      · simp [scanDownBreak, if_pos hA, if_pos hB]
      · simp only [scanDownBreak, if_pos hA, if_neg hB]
        omega
    · simp [scanDownBreak, if_neg hA]

theorem scanUpBreak_ge (A B : ℕ → Bool) (fuel e : ℕ) : e ≤ scanUpBreak A B fuel e := by
  induction fuel generalizing e with
  | zero => simp [scanUpBreak]
  | succ f ih =>
    by_cases hA : A e = true
    · by_cases hB : B e = true
      · simp [scanUpBreak, if_pos hA, if_pos hB]
      · simp only [scanUpBreak, if_pos hA, if_neg hB]
        exact le_trans (by omega) (ih (e + 1))
    · simp [scanUpBreak, if_neg hA]

theorem scanUpBreak_le (A B : ℕ → Bool) (m : ℕ) (hA : ∀ x, A x = true → x + 1 ≤ m)
    (fuel e : ℕ) (he : e ≤ m) : scanUpBreak A B fuel e ≤ m := by
  induction fuel generalizing e with
  | zero => simpa [scanUpBreak] using he
  | succ f ih =>
    by_cases hAe : A e = true
    · by_cases hB : B e = true
      · simpa [scanUpBreak, if_pos hAe, if_pos hB] using he
      · simp only [scanUpBreak, if_pos hAe, if_neg hB]
        exact ih (e + 1) (hA e hAe)
    · simpa [scanUpBreak, if_neg hAe] using he

theorem gaussianSmooth_length (ops : RealOps) (data : List ℚ) (w : ℕ) :
    (gaussianSmooth ops data w).length = data.length := by
  unfold gaussianSmooth
  simp only [List.length_map, List.length_range]

theorem getD_map_range {α : Type _} (f : ℕ → α) (n i : ℕ) (d : α) (h : i < n) :
    ((List.range n).map f).getD i d = f i := by
  rw [List.getD_eq_getElem?_getD, List.getElem?_map, List.getElem?_range h]
  rfl

theorem laneNetProfile_nonneg (ops : RealOps) (data : List ℚ) (width : ℕ) (rect : Rect)
    (s : GelSettings) : ∀ q ∈ laneNetProfile ops data width rect s, 0 ≤ q := by
  intro q hq
  rw [laneNetProfile, List.mem_map] at hq
  obtain ⟨i, _, rfl⟩ := hq
  exact le_max_left 0 _

theorem pxZ_nonneg (l : List ℚ) (h : ∀ q ∈ l, 0 ≤ q) (i : ℤ) : 0 ≤ pxZ l i := by
  rw [pxZ]
  split
  · rcases getD_eq_or_mem l i.toNat 0 with he | hm
    · rw [he]
    · exact h _ hm
  · exact le_refl 0

theorem profileSumZ_nonneg (l : List ℚ) (h : ∀ q ∈ l, 0 ≤ q) (a b : ℤ) :
    0 ≤ profileSumZ l a b := by
  rw [profileSumZ]
  apply foldl_add_nonneg _ _ le_rfl
  intro q hq
  rw [List.mem_map] at hq
  obtain ⟨j, _, rfl⟩ := hq
  exact pxZ_nonneg l h _

theorem laneAdjustedBands_volume (ops : RealOps) (data : List ℚ) (width : ℕ) (s : GelSettings)
    (ov : ManualOverrides) (laneIndex : ℕ) (rect : Rect) :
    ∀ b ∈ laneAdjustedBands ops data width s ov laneIndex rect,
      b.volume = profileSumZ (laneNetProfile ops data width rect s) b.yStart b.yEnd ∧
      0 ≤ b.volume := by
  intro b hb
  rw [laneAdjustedBands, List.mem_map] at hb
  obtain ⟨b0, _, rfl⟩ := hb
  have hnet := laneNetProfile_nonneg ops data width rect s
  rcases hadj : ov.bandAdjustments b0.id with _ | adj
  · exact ⟨rfl, profileSumZ_nonneg _ hnet _ _⟩
  · exact ⟨rfl, profileSumZ_nonneg _ hnet _ _⟩

theorem buildLane_bands_volume (ops : RealOps) (data : List ℚ) (width : ℕ) (cropX cropY : ℤ)
    (s : GelSettings) (ov : ManualOverrides) (laneIndex : ℕ) (rect : Rect) :
    ∀ b ∈ (buildLane ops data width cropX cropY s ov laneIndex rect).bands,
      b.volume = profileSumZ (laneNetProfile ops data width rect s) b.yStart b.yEnd ∧
      0 ≤ b.volume ∧
      (∃ b0 ∈ laneAdjustedBands ops data width s ov laneIndex rect,
        b.yStart = b0.yStart ∧ b.yPeak = b0.yPeak ∧ b.yEnd = b0.yEnd ∧
        b.volume = b0.volume ∧ b.isManual = b0.isManual) := by
  intro b hb
  rw [buildLane] at hb
  simp only at hb
  rcases hmb : laneMainBandOf ops data width s ov laneIndex rect with _ | mb
  · rw [hmb] at hb
    refine ⟨(laneAdjustedBands_volume ops data width s ov laneIndex rect b hb).1,
      (laneAdjustedBands_volume ops data width s ov laneIndex rect b hb).2,
      b, hb, rfl, rfl, rfl, rfl, rfl⟩
  · rw [hmb, List.mem_map] at hb
    obtain ⟨b0, hb0, rfl⟩ := hb
    obtain ⟨hv, hnn⟩ := laneAdjustedBands_volume ops data width s ov laneIndex rect b0 hb0
    exact ⟨hv, hnn, b0, hb0, rfl, rfl, rfl, rfl, rfl⟩

/-- Property of every emitted smear region: it ends strictly before the
last profile index, the sample right after it is at or below the noise
floor, and its volume is a nonnegative residual sum. -/
def SmearOk (res : ℕ → ℚ) (noiseFloor : ℚ) (len : ℕ) (sm : SmearRegion) : Prop :=
  sm.yEnd + 1 < len ∧ ¬(res (sm.yEnd + 1) > noiseFloor) ∧ 0 ≤ sm.volume

theorem smearScanStep_eq_none (res : ℕ → ℚ) (nf msw mp : ℚ) (li x : ℕ) (acc : List SmearRegion) :
    smearScanStep res nf msw mp li (Option.none, acc) x =
      if res x > nf then (Option.some x, acc) else (Option.none, acc) := by
  rw [smearScanStep]

theorem smearScanStep_eq_some (res : ℕ → ℚ) (nf msw mp : ℚ) (li x : ℕ) (acc : List SmearRegion)
    (s0 : ℕ) :
    smearScanStep res nf msw mp li (Option.some s0, acc) x =
      if res x > nf then (Option.some s0, acc)
      else
        if ((x - 1 : ℕ) : ℚ) - (s0 : ℚ) > msw then
          (if ((List.range (x - 1 + 1 - s0)).map (fun k => res (s0 + k))).foldl
                (fun a b => a + b) 0 > mp * 10 ∧
              ((List.range (x - 1 + 1 - s0)).map (fun k => res (s0 + k))).foldl
                (fun a b => a + b) 0 / (((x - 1 : ℕ) : ℚ) - (s0 : ℚ) + 1) > nf * 1.5 then
            (Option.none, acc ++ [{ id := "L" ++ toString li ++ "-S" ++ toString (acc.length + 1),
                                    yStart := s0, yEnd := x - 1,
                                    volume := ((List.range (x - 1 + 1 - s0)).map
                                      (fun k => res (s0 + k))).foldl (fun a b => a + b) 0 }])
          else (Option.none, acc))
        else (Option.none, acc) := by
  rw [smearScanStep]

theorem smearScan_inv (res : ℕ → ℚ) (noiseFloor minSmearWidth minProminence : ℚ)
    (laneIndex len : ℕ) (hres : ∀ x, 0 ≤ res x) :
    ∀ (count start : ℕ) (st : Option ℕ × List SmearRegion),
      start + count ≤ len →
      (∀ sm ∈ st.2, SmearOk res noiseFloor len sm) →
      (∀ s0, st.1 = Option.some s0 → s0 < start) →
      (∀ sm ∈ ((List.range' start count).foldl
          (smearScanStep res noiseFloor minSmearWidth minProminence laneIndex) st).2,
        SmearOk res noiseFloor len sm) ∧
      (∀ s0, ((List.range' start count).foldl
          (smearScanStep res noiseFloor minSmearWidth minProminence laneIndex) st).1 =
            Option.some s0 → s0 < start + count) := by
  intro count
  induction count with
  | zero =>
    intro start st _ hsm hs0
    refine ⟨by simpa [List.range'] using hsm, ?_⟩
    simpa [List.range'] using hs0
  | succ c ih =>
    intro start st hlen hsm hs0
    obtain ⟨cur, acc⟩ := st
    rw [List.range'_succ]
    simp only [List.foldl_cons]
    have step1 := ih (start + 1)
      (smearScanStep res noiseFloor minSmearWidth minProminence laneIndex (cur, acc) start)
    have hstep : (∀ sm ∈ (smearScanStep res noiseFloor minSmearWidth minProminence laneIndex
          (cur, acc) start).2, SmearOk res noiseFloor len sm) ∧
        (∀ s0, (smearScanStep res noiseFloor minSmearWidth minProminence laneIndex
          (cur, acc) start).1 = Option.some s0 → s0 < start + 1) := by
      rcases cur with _ | s0
      · rw [smearScanStep_eq_none]
        by_cases habove : res start > noiseFloor
        · rw [if_pos habove]
          exact ⟨hsm, by intro s0 h; simp only [Option.some.injEq] at h; omega⟩
        · rw [if_neg habove]
          exact ⟨hsm, by intro s0 h; simp only at h; cases h⟩
      · rw [smearScanStep_eq_some]
        by_cases habove : res start > noiseFloor
        · rw [if_pos habove]
          refine ⟨hsm, ?_⟩
          intro s1 h
          simp only [Option.some.injEq] at h
          have := hs0 s0 rfl
          omega
        · rw [if_neg habove]
          have hs0start : s0 < start := hs0 s0 rfl
          by_cases hwide : ((start - 1 : ℕ) : ℚ) - (s0 : ℚ) > minSmearWidth
          · rw [if_pos hwide]
            by_cases hsig : (((List.range (start - 1 + 1 - s0)).map (fun k => res (s0 + k))).foldl
                (fun a b => a + b) 0 > minProminence * 10 ∧
                ((List.range (start - 1 + 1 - s0)).map (fun k => res (s0 + k))).foldl
                  (fun a b => a + b) 0 / (((start - 1 : ℕ) : ℚ) - (s0 : ℚ) + 1) > noiseFloor * 1.5)
            · rw [if_pos hsig]
              refine ⟨?_, by intro s1 h; cases h⟩
              intro sm hm
              rw [List.mem_append] at hm
              rcases hm with hm | hm
              · exact hsm sm hm
              · rw [List.mem_singleton] at hm
                subst hm
                refine ⟨by show start - 1 + 1 < len; omega, ?_, ?_⟩
                · have : start - 1 + 1 = start := by omega
                  rw [this]
                  exact habove
                · apply foldl_add_nonneg _ _ le_rfl
                  intro q hq
                  rw [List.mem_map] at hq
                  obtain ⟨k, _, rfl⟩ := hq
                  exact hres _
            · rw [if_neg hsig]
              exact ⟨hsm, by intro s1 h; cases h⟩
          · rw [if_neg hwide]
            exact ⟨hsm, by intro s1 h; cases h⟩
    have := step1 (by omega) hstep.1 hstep.2
    refine ⟨this.1, ?_⟩
    intro s0 h
    have := this.2 s0 h
    omega

/-- Every smear emitted by `findBandsAndSmears` satisfies `SmearOk`:
the run is terminated by a below-threshold residual sample strictly
before the end of the profile, and its volume is nonnegative. -/
theorem findBandsAndSmears_smearOk (ops : RealOps) (profile : List ℚ) (laneIndex : ℕ)
    (s : GelSettings) :
    ∀ sm ∈ (findBandsAndSmears ops profile laneIndex s).smears,
      SmearOk (residueAt ops (gaussiansOf profile s) s.noiseTolerance profile)
        s.noiseTolerance profile.length sm := by
  intro sm hm
  rw [findBandsAndSmears] at hm
  simp only at hm
  rw [List.range_eq_range'] at hm
  have := (smearScan_inv (residueAt ops (gaussiansOf profile s) s.noiseTolerance profile)
    s.noiseTolerance (s.minPeakDistance * 2) (s.minPeakProminence / 100 * 255) laneIndex
    profile.length (fun x => le_max_left 0 _) profile.length 0 (Option.none, [])
    (by omega) (by intro a ha; cases ha) (by intro a ha; cases ha)).1
  exact this sm hm

theorem mem_acceptPeaks (profile : List ℚ) (d : ℚ) (cands : List ℕ) :
    ∀ q ∈ acceptPeaks profile d cands, q ∈ cands := by
  rw [acceptPeaks]
  have key : ∀ (l acc : List ℕ), (∀ x ∈ acc, x ∈ cands) →
      (∀ x ∈ l, x ∈ cands) →
      ∀ q ∈ l.foldl (fun (a : List ℕ) (p : ℕ) =>
        if a.any (fun e => decide (|(p : ℚ) - (e : ℚ)| < d)) then a else a ++ [p]) acc,
        q ∈ cands := by
    intro l
    induction l with
    | nil => intro acc hacc _ q hq; exact hacc q hq
    | cons h t ih =>
      intro acc hacc hl q hq
      rw [List.foldl_cons] at hq
      refine ih _ ?_ (fun x hx => hl x (List.mem_cons_of_mem _ hx)) q hq
      intro x hx
      by_cases hc : acc.any (fun e => decide (|(h : ℚ) - (e : ℚ)| < d)) = true
      · rw [if_pos hc] at hx
        exact hacc x hx
      · rw [if_neg hc, List.mem_append] at hx
        rcases hx with hx | hx
        · exact hacc x hx
        · rw [List.mem_singleton] at hx
          subst hx
          exact hl x (List.mem_cons_self _ _)
  intro q hq
  exact key _ [] (by intro x hx; cases hx)
    (fun x hx => (mem_stableSort _ cands x).mp hx) q hq

theorem mem_finalPeaks (profile : List ℚ) (s : GelSettings) :
    ∀ q ∈ finalPeaks profile s, q ∈ peakCandidates profile s := by
  rw [finalPeaks]
  intro q hq
  by_cases hd : s.minPeakDistance > 0
  · rw [if_pos hd] at hq
    rw [mem_stableSort] at hq
    exact mem_acceptPeaks profile s.minPeakDistance _ q hq
  · rwa [if_neg hd] at hq

theorem peakCandidates_bounds (profile : List ℚ) (s : GelSettings) :
    ∀ i ∈ peakCandidates profile s, 2 ≤ i ∧ i + 2 < profile.length := by
  intro i hi
  rw [peakCandidates, List.mem_filter] at hi
  have := (List.mem_range'_1).mp hi.1
  omega

theorem mem_gaussiansOf (profile : List ℚ) (s : GelSettings) :
    ∀ g ∈ gaussiansOf profile s, 2 ≤ g.idx ∧ g.idx + 2 < profile.length := by
  intro g hg
  rw [gaussiansOf, List.mem_map] at hg
  obtain ⟨idx, hidx, rfl⟩ := hg
  have := peakCandidates_bounds profile s idx (mem_finalPeaks profile s idx hidx)
  rw [mkGaussian]
  exact this

theorem bandBoundaries_spec (profile : List ℚ) (s : GelSettings) (g : Gaussian)
    (hidx : g.idx < profile.length) :
    (bandBoundaries profile s g).1 ≤ g.idx ∧ g.idx ≤ (bandBoundaries profile s g).2 ∧
      (bandBoundaries profile s g).2 < profile.length := by
  refine ⟨scanDownBreak_le _ _ _, scanUpBreak_ge _ _ _ _, ?_⟩
  have h2 : (bandBoundaries profile s g).2 ≤ profile.length - 1 :=
    scanUpBreak_le
      (fun e => decide (e < profile.length - 1) &&
        decide (pAt profile e > max s.noiseTolerance (g.height * 0.05)) &&
        decide ((e : ℚ) - (g.idx : ℚ) < s.bandBoundarySigma * g.sigma * 1.5))
      (fun e => decide (e < profile.length - 2) &&
        decide (pAt profile (e + 1) > pAt profile e + s.noiseTolerance))
      (profile.length - 1)
      (by
        intro e he
        simp only [Bool.and_eq_true, decide_eq_true_eq] at he
        omega)
      profile.length g.idx (by omega)
  omega

theorem detectedBands_invariant (ops : RealOps) (profile : List ℚ) (laneIndex : ℕ)
    (s : GelSettings) :
    ∀ b ∈ detectedBands ops profile laneIndex s,
      b.isManual = false ∧ 0 ≤ b.yStart ∧ b.yStart ≤ b.yPeak ∧ b.yPeak ≤ b.yEnd ∧
        b.yEnd < (profile.length : ℤ) := by
  intro b hb
  rw [detectedBands, List.mem_map] at hb
  obtain ⟨i, hi, rfl⟩ := hb
  rw [List.mem_range] at hi
  have hg : (gaussiansOf profile s).getD i dGauss ∈ gaussiansOf profile s :=
    getD_mem_of_lt _ _ _ hi
  have hbounds := mem_gaussiansOf profile s _ hg
  have hspec := bandBoundaries_spec profile s ((gaussiansOf profile s).getD i dGauss)
    (by omega)
  dsimp only
  refine ⟨rfl, ?_, ?_, ?_, ?_⟩
  · exact Int.natCast_nonneg _
  · exact_mod_cast hspec.1
  · exact_mod_cast hspec.2.1
  · exact_mod_cast hspec.2.2

theorem findBandsAndSmears_bands (ops : RealOps) (profile : List ℚ) (li : ℕ) (s : GelSettings) :
    (findBandsAndSmears ops profile li s).bands =
      stableSort (fun a b => decide (a.yPeak ≤ b.yPeak)) (detectedBands ops profile li s) := rfl

theorem mem_processGelImage (ops : RealOps) (img : QImage) (s : GelSettings)
    (ov : ManualOverrides) (lane : LaneData) (h : lane ∈ processGelImage ops img s ov) :
    ∃ laneIndex rect, rect ∈ laneRectsOf ops img s ∧
      lane = buildLane ops (croppedDataOf img s) (cropWOf img s).toNat (cropXOf img s)
        (cropYOf img s) s ov laneIndex rect := by
  rw [processGelImage] at h
  split at h
  · cases h
  · rw [List.mem_map] at h
    obtain ⟨i, hi, rfl⟩ := h
    rw [List.mem_range] at hi
    exact ⟨i + 1, (laneRectsOf ops img s).getD i dRect, getD_mem_of_lt _ _ _ hi, rfl⟩

theorem detectLanes_height (ops : RealOps) (width height : ℕ) (data : List ℚ)
    (s : GelSettings) : ∀ r ∈ detectLanes ops width height data s, r.height = (height : ℤ) := by
  intro r hr
  rw [detectLanes] at hr
  dsimp only at hr
  split at hr
  · cases hr
  · split at hr
    · cases hr
    · rw [List.mem_map] at hr
      obtain ⟨i, _, rfl⟩ := hr
      rfl

theorem laneRectsOf_height (ops : RealOps) (img : QImage) (s : GelSettings) :
    ∀ r ∈ laneRectsOf ops img s, r.height = ((cropHOf img s).toNat : ℤ) := by
  intro r hr
  rw [laneRectsOf] at hr
  split at hr
  · rw [fallbackRects, List.mem_map] at hr
    obtain ⟨i, _, rfl⟩ := hr
    rfl
  · rename_i hcond
    rw [autoRectsOf] at hr
    by_cases hauto : s.autoDetectLanes = true
    · rw [if_pos hauto] at hr
      exact detectLanes_height ops _ _ _ s r hr
    · exfalso
      exact hcond (Or.inl (by revert hauto; cases s.autoDetectLanes <;> simp))

theorem laneSortedBands_noManual (ops : RealOps) (data : List ℚ) (width : ℕ) (s : GelSettings)
    (ov : ManualOverrides) (laneIndex : ℕ) (rect : Rect)
    (hub : ov.userBands laneIndex = []) :
    ∀ b ∈ laneSortedBands ops data width s ov laneIndex rect,
      b ∈ detectedBands ops (laneNetProfile ops data width rect s) laneIndex s := by
  intro b hb
  rw [laneSortedBands] at hb
  rw [mem_stableSort, List.mem_append] at hb
  rcases hb with hb | hb
  · rw [findBandsAndSmears_bands, mem_stableSort] at hb
    exact hb
  · rw [hub] at hb
    cases hb

theorem laneAdjustedBands_coords (ops : RealOps) (data : List ℚ) (width : ℕ) (s : GelSettings)
    (ov : ManualOverrides) (laneIndex : ℕ) (rect : Rect)
    (hadj : ∀ bid, ov.bandAdjustments bid = Option.none) :
    ∀ b ∈ laneAdjustedBands ops data width s ov laneIndex rect,
      ∃ b0 ∈ laneSortedBands ops data width s ov laneIndex rect,
        b.yStart = b0.yStart ∧ b.yPeak = b0.yPeak ∧ b.yEnd = b0.yEnd ∧
        b.isManual = b0.isManual := by
  intro b hb
  rw [laneAdjustedBands, List.mem_map] at hb
  obtain ⟨b0, hb0, rfl⟩ := hb
  rw [hadj b0.id]
  exact ⟨b0, hb0, rfl, rfl, rfl, rfl⟩

theorem foldl_min_le (t : List ℚ) (a : ℚ) : t.foldl min a ≤ a := by
  induction t generalizing a with
  | nil => exact le_rfl
  | cons x r ih => exact le_trans (ih (min a x)) (min_le_left a x)

theorem le_foldl_max (t : List ℚ) (a : ℚ) : a ≤ t.foldl max a := by
  induction t generalizing a with
  | nil => exact le_rfl
  | cons x r ih => exact le_trans (le_max_left a x) (ih (max a x))

theorem listMin_le_listMax (l : List ℚ) (h : l ≠ []) : listMin l ≤ listMax l := by
  cases l with
  | nil => exact absurd rfl h
  | cons x t => exact le_trans (foldl_min_le t x) (le_foldl_max t x)

theorem buildLane_rect (ops : RealOps) (data : List ℚ) (width : ℕ) (cX cY : ℤ)
    (s : GelSettings) (ov : ManualOverrides) (li : ℕ) (rect : Rect) :
    (buildLane ops data width cX cY s ov li rect).rect =
      { x := rect.x + cX, y := rect.y + cY, width := rect.width, height := rect.height } := rfl

theorem fallbackRects_getD (w h : ℕ) (s : GelSettings) (i : ℕ) (hi : i < s.numLanes) :
    (fallbackRects w h s).getD i dRect =
      { x := Int.floor ((i : ℚ) * ((w : ℚ) / (s.numLanes : ℚ)) +
          (((w : ℚ) / (s.numLanes : ℚ)) -
            ((w : ℚ) / (s.numLanes : ℚ)) * (1 - s.laneMargin / 100)) / 2),
        y := 0,
        width := Int.floor (((w : ℚ) / (s.numLanes : ℚ)) * (1 - s.laneMargin / 100)),
        height := (h : ℤ) } := by
  simp only [fallbackRects]
  rw [getD_map_range _ _ _ _ hi]

theorem foldl_pair_invariant {α : Type _} (f : ℚ × ℚ → α → ℚ × ℚ) (l : List α)
    (h : ∀ p a, a ∈ l → 0 ≤ p.1 ∧ 0 ≤ p.2 → 0 ≤ (f p a).1 ∧ 0 ≤ (f p a).2) :
    ∀ acc, 0 ≤ acc.1 ∧ 0 ≤ acc.2 → 0 ≤ (l.foldl f acc).1 ∧ 0 ≤ (l.foldl f acc).2 := by
  induction l with
  | nil => intro acc hacc; simpa using hacc
  | cons x t ih =>
    intro acc hacc
    rw [List.foldl_cons]
    exact ih (fun p a ha hp => h p a (List.mem_cons_of_mem _ ha) hp) _
      (h acc x (List.mem_cons_self _ _) hacc)

theorem laneVolumePair_nonneg (ops : RealOps) (data : List ℚ) (width : ℕ) (s : GelSettings)
    (ov : ManualOverrides) (li : ℕ) (rect : Rect) :
    0 ≤ (laneVolumePair ops data width s ov li rect).1 ∧
    0 ≤ (laneVolumePair ops data width s ov li rect).2 := by
  rw [laneVolumePair]
  have htot : 0 ≤ (laneNetProfile ops data width rect s).foldl (fun a b => a + b) 0 :=
    foldl_add_nonneg _ _ le_rfl (laneNetProfile_nonneg ops data width rect s)
  rcases hmb : laneMainBandOf ops data width s ov li rect with _ | mb
  · exact ⟨le_rfl, htot⟩
  · have hbands := foldl_pair_invariant
      (fun (acc : ℚ × ℚ) (b : Band) => if b.yPeak ≤ mb.yPeak then (acc.1 + b.volume, acc.2)
        else (acc.1, acc.2 + b.volume))
      (laneActiveBands ops data width s ov li rect)
      (by
        intro p b hb hp
        have hv : 0 ≤ b.volume := by
          rw [laneActiveBands, List.mem_filter] at hb
          exact (laneAdjustedBands_volume ops data width s ov li rect b hb.1).2
        by_cases hc : b.yPeak ≤ mb.yPeak
        · simp only [if_pos hc]
          exact ⟨by show 0 ≤ p.1 + b.volume; linarith [hp.1], by show 0 ≤ p.2; exact hp.2⟩
        · simp only [if_neg hc]
          exact ⟨by show 0 ≤ p.1; exact hp.1, by show 0 ≤ p.2 + b.volume; linarith [hp.2]⟩)
    have hsm := foldl_pair_invariant
      (fun (acc : ℚ × ℚ) (sm : SmearRegion) =>
        if ((sm.yStart : ℚ) + (sm.yEnd : ℚ)) / 2 ≤ (mb.yPeak : ℚ)
        then (acc.1 + sm.volume, acc.2) else (acc.1, acc.2 + sm.volume))
      ((findBandsAndSmears ops (laneNetProfile ops data width rect s) li s).smears)
      (by
        intro p sm hm hp
        have hv : 0 ≤ sm.volume :=
          (findBandsAndSmears_smearOk ops (laneNetProfile ops data width rect s) li s sm hm).2.2
        by_cases hc : ((sm.yStart : ℚ) + (sm.yEnd : ℚ)) / 2 ≤ (mb.yPeak : ℚ)
        · simp only [if_pos hc]
          exact ⟨by show 0 ≤ p.1 + sm.volume; linarith [hp.1], by show 0 ≤ p.2; exact hp.2⟩
        · simp only [if_neg hc]
          exact ⟨by show 0 ≤ p.1; exact hp.1, by show 0 ≤ p.2 + sm.volume; linarith [hp.2]⟩)
    exact hsm _ (hbands (0, 0) ⟨le_rfl, le_rfl⟩)

theorem laneVolumePair_none (ops : RealOps) (data : List ℚ) (width : ℕ) (s : GelSettings)
    (ov : ManualOverrides) (li : ℕ) (rect : Rect)
    (h : laneMainBandOf ops data width s ov li rect = Option.none) :
    laneVolumePair ops data width s ov li rect =
      (0, (laneNetProfile ops data width rect s).foldl (fun a b => a + b) 0) := by
  rw [laneVolumePair, h]

theorem laneScore_nonneg_le (ops : RealOps) (data : List ℚ) (width : ℕ) (s : GelSettings)
    (ov : ManualOverrides) (li : ℕ) (rect : Rect) :
    0 ≤ laneScore ops data width s ov li rect ∧ laneScore ops data width s ov li rect ≤ 100 := by
  obtain ⟨h1, h2⟩ := laneVolumePair_nonneg ops data width s ov li rect
  rw [laneScore]
  split
  · rename_i hcond
    have hpos : 0 < (laneVolumePair ops data width s ov li rect).1 +
        (laneVolumePair ops data width s ov li rect).2 := hcond.1
    constructor
    · positivity
    · have hle : (laneVolumePair ops data width s ov li rect).1 /
          ((laneVolumePair ops data width s ov li rect).1 +
           (laneVolumePair ops data width s ov li rect).2) ≤ 1 := by
        rw [div_le_one hpos]
        linarith
      nlinarith
  · exact ⟨le_rfl, by norm_num⟩

theorem laneScore_zero_of_sum_zero (ops : RealOps) (data : List ℚ) (width : ℕ) (s : GelSettings)
    (ov : ManualOverrides) (li : ℕ) (rect : Rect)
    (h : (laneVolumePair ops data width s ov li rect).1 +
      (laneVolumePair ops data width s ov li rect).2 = 0) :
    laneScore ops data width s ov li rect = 0 := by
  rw [laneScore]
  rw [if_neg]
  intro hcond
  rw [h] at hcond
  exact absurd hcond.1 (by norm_num)

/-- Claim C3 (counterexample): the claim states that the dynamic lane
threshold scales inversely with `laneDetectionSensitivity` (so a higher
sensitivity lowers the threshold, and every candidate column accepted at a
lower sensitivity is accepted at a higher one).  The source computes
`threshold = 0.2 * sensitivity`, which scales directly: at sensitivities
1 and 2 the thresholds are 0.2 and 0.4, refuting the claim. -/
theorem c3_counterexample :
    ¬ (∀ (s : GelSettings) (q1 q2 : ℚ), 1/2 ≤ q1 → q1 < q2 → q2 ≤ 2 →
        laneDetectionThreshold (setSens s q2) ≤ laneDetectionThreshold (setSens s q1) ∧
        (∀ (ops : RealOps) (w h : ℕ) (d : List ℚ) (i : ℕ),
          isLaneCandidate ops w h d (setSens s q1) i = true →
          isLaneCandidate ops w h d (setSens s q2) i = true)) := by
  intro hcl
  have := (hcl sA 1 2 (by norm_num) (by norm_num) (by norm_num)).1
  exact absurd this (by decide)

/-- Claim C3 (amended): the threshold `0.2 * laneDetectionSensitivity`
scales directly with the sensitivity setting — strictly increasing in it —
so every column passing the threshold-and-local-maximum test at the higher
sensitivity also passes it at the lower one (the reverse of the claim). -/
theorem c3_amended : ∀ (s : GelSettings) (q1 q2 : ℚ), q1 < q2 →
    laneDetectionThreshold (setSens s q1) < laneDetectionThreshold (setSens s q2) ∧
    (∀ (ops : RealOps) (w h : ℕ) (d : List ℚ) (i : ℕ),
      isLaneCandidate ops w h d (setSens s q2) i = true →
      isLaneCandidate ops w h d (setSens s q1) i = true) := by
  intro s q1 q2 hq
  have hthr : laneDetectionThreshold (setSens s q1) < laneDetectionThreshold (setSens s q2) := by
    show (0.2 : ℚ) * q1 < 0.2 * q2
    nlinarith
  refine ⟨hthr, ?_⟩
  intro ops w h d i hc
  rw [isLaneCandidate] at hc ⊢
  have hnp : laneNormProfile ops w h d (setSens s q2) = laneNormProfile ops w h d (setSens s q1) :=
    rfl
  rw [hnp] at hc
  simp only [Bool.and_eq_true, decide_eq_true_eq] at hc ⊢
  exact ⟨⟨lt_trans hthr hc.1.1, hc.1.2⟩, hc.2⟩

/-- Claim C3 (witness): at sensitivities 1 and 2 the thresholds are 0.2
and 0.4 respectively, so the threshold strictly increases. -/
theorem c3_amended_witness :
    laneDetectionThreshold (setSens sA 1) < laneDetectionThreshold (setSens sA 2) :=
  (c3_amended sA 1 2 (by norm_num)).1

/-- Claim C4 (counterexample): the claim states that `autoDetectROI`
computes an Otsu histogram threshold lying strictly between the modes of
a two-mode intensity histogram (70% at 20, 30% at 200).  The code instead
thresholds a smoothed projection profile at `min + 0.15 * range`, a value
in projection-sum units: on a concrete 10-by-40 two-mode image the x-axis
threshold is 518, not strictly below 200. -/
theorem c4_counterexample :
    ¬ (∀ (ops : RealOps) (img : QImage) (inv : Bool), isTwoModeHistogram img →
        (20 < boundsThresholdOf ops (roiXProfile img inv) ∧
          boundsThresholdOf ops (roiXProfile img inv) < 200) ∧
        (20 < boundsThresholdOf ops (roiYProfile img inv) ∧
          boundsThresholdOf ops (roiYProfile img inv) < 200)) := by
  intro hcl
  have := ((hcl opsU img4 true (by decide)).1).2
  exact absurd this (by decide)

/-- Claim C4 (amended): `autoDetectROI` computes no histogram and no Otsu
threshold; per axis it thresholds the Gaussian-smoothed projection profile
at its minimum plus 15% of its range, a value that always lies between the
minimum and maximum of that profile. -/
theorem c4_amended : ∀ (l : List ℚ), l ≠ [] →
    listMin l ≤ findBoundsThreshold l ∧ findBoundsThreshold l ≤ listMax l := by
  intro l h
  have hmm := listMin_le_listMax l h
  rw [findBoundsThreshold]
  constructor
  · nlinarith
  · nlinarith

/-- Claim C4 (witness): for the profile `[1, 3]` the threshold `1.3` lies
between the minimum 1 and the maximum 3. -/
theorem c4_amended_witness :
    listMin [(1 : ℚ), 3] ≤ findBoundsThreshold [(1 : ℚ), 3] ∧
    findBoundsThreshold [(1 : ℚ), 3] ≤ listMax [(1 : ℚ), 3] :=
  c4_amended [(1 : ℚ), 3] (by decide)

/-- Claim C6: when the configured ROI collapses to zero or negative area
(in particular whenever `roiLeft + roiRight ≥ 100`), `processGelImage`
returns the empty lane list (and, being a total function, does not raise). -/
theorem c6_empty_on_collapsed_roi : ∀ (ops : RealOps) (img : QImage) (s : GelSettings)
    (ov : ManualOverrides),
    (100 ≤ s.roiLeft + s.roiRight ∨ cropWOf img s ≤ 0 ∨ cropHOf img s ≤ 0) →
    processGelImage ops img s ov = [] := by
  intro ops img s ov h
  have hcw : cropWOf img s ≤ 0 ∨ cropHOf img s ≤ 0 := by
    rcases h with h | h | h
    · left
      rw [cropWOf]
      have hle : (100 - s.roiRight - s.roiLeft : ℚ) ≤ 0 := by linarith
      have hw : (0 : ℚ) ≤ (img.width : ℚ) := Nat.cast_nonneg _
      have hmul : (100 - s.roiRight - s.roiLeft) / 100 * (img.width : ℚ) ≤ 0 := by nlinarith
      calc Int.floor ((100 - s.roiRight - s.roiLeft) / 100 * (img.width : ℚ))
          ≤ Int.floor (0 : ℚ) := Int.floor_le_floor hmul
        _ = 0 := Int.floor_zero
    · exact Or.inl h
    · exact Or.inr h
  rw [processGelImage, if_pos hcw]

/-- Claim C6 (witness): with `roiLeft = 60` and `roiRight = 50` the lane
list is empty. -/
theorem c6_witness :
    processGelImage opsU img0
      { sA with roiLeft := 60, roiRight := 50 } ov0 = [] :=
  c6_empty_on_collapsed_roi opsU img0 _ ov0 (Or.inl (by norm_num))

/-- Claim C9: `processGelImage` is deterministic — identical pixel buffers,
settings and overrides produce structurally identical lane lists.  The
embedding is a pure function of its inputs because the source consults no
randomness, time, or other ambient state (band and smear ids are
deterministic counters). -/
theorem c9_deterministic : ∀ (ops : RealOps) (ia ib : QImage) (sa sb : GelSettings)
    (ova ovb : ManualOverrides), ia = ib → sa = sb → ova = ovb →
    processGelImage ops ia sa ova = processGelImage ops ib sb ovb := by
  intro ops ia ib sa sb ova ovb h1 h2 h3
  rw [h1, h2, h3]

/-- Claim C9 (witness): repeated identical calls on a concrete input agree. -/
theorem c9_witness :
    processGelImage opsU img1 sA ov0 = processGelImage opsU img1 sA ov0 :=
  c9_deterministic opsU img1 img1 sA sA ov0 ov0 rfl rfl rfl

/-- Claim C10: a contiguous above-noise residual run reaching the final
profile index is never emitted as a smear region: every emitted region
ends strictly before the last index, terminated by a sample whose residual
is at or below the noise floor. -/
theorem c10_smear_terminated : ∀ (ops : RealOps) (profile : List ℚ) (laneIndex : ℕ)
    (s : GelSettings), ∀ sm ∈ (findBandsAndSmears ops profile laneIndex s).smears,
    sm.yEnd + 1 < profile.length ∧
    ¬ (residueAt ops (gaussiansOf profile s) s.noiseTolerance profile (sm.yEnd + 1) >
        s.noiseTolerance) := by
  intro ops profile laneIndex s sm hm
  have h := findBandsAndSmears_smearOk ops profile laneIndex s sm hm
  exact ⟨h.1, h.2.1⟩

/-- Claim C10 (witness): the flat-run profile `p10` yields one smear
region, ending at index 8 of the 12-sample profile with a below-noise
residual at index 9. -/
theorem c10_witness :
    (findBandsAndSmears opsU p10 1 sA).smears ≠ [] ∧
    ((findBandsAndSmears opsU p10 1 sA).smears.getD 0 dSmear).yEnd + 1 < p10.length ∧
    ¬ (residueAt opsU (gaussiansOf p10 sA) sA.noiseTolerance p10
        (((findBandsAndSmears opsU p10 1 sA).smears.getD 0 dSmear).yEnd + 1) >
          sA.noiseTolerance) :=
  ⟨by decide, c10_smear_terminated opsU p10 1 sA _ (by decide)⟩

/-- Claim C1 (counterexample): the claim states that every detected
(non-manual) band in a returned lane reports the soft-assignment volume of
the fitted Gaussian model.  In fact `processGelImage` overwrites every
band's volume with the direct sum of the net profile over the band's
window: on a concrete one-lane image the single detected band reports 123
(window sum over rows 7..13) while its soft-assignment total is 120. -/
theorem c1_counterexample :
    ¬ (∀ (ops : RealOps) (img : QImage) (s : GelSettings) (ov : ManualOverrides),
        ∀ lane ∈ processGelImage ops img s ov, ∀ b ∈ lane.bands, b.isManual = false →
          ∃ i, i < (gaussiansOf lane.netProfile s).length ∧
            b.volume = softVolume ops (gaussiansOf lane.netProfile s) s.noiseTolerance
              lane.netProfile i) := by
  intro hcl
  obtain ⟨i, hi, hv⟩ := hcl opsU img1 sA ov0 ((processGelImage opsU img1 sA ov0).getD 0 dLane)
    (by decide) (((processGelImage opsU img1 sA ov0).getD 0 dLane).bands.getD 0 dBand)
    (by decide) (by decide)
  have h1 : (gaussiansOf ((processGelImage opsU img1 sA ov0).getD 0 dLane).netProfile sA).length
      = 1 := by decide
  rw [h1] at hi
  have hi0 : i = 0 := by omega
  subst hi0
  exact absurd hv (by decide)

/-- Claim C1 (amended): inside `findBandsAndSmears` every detected band's
volume is the soft-assignment total of the fitted Gaussian model, but
`processGelImage` then recomputes every returned band's volume as the
direct sum of the net profile over the band's `[yStart, yEnd]` window, so
the reported volume is the window sum, not the soft-assignment total. -/
theorem c1_amended : ∀ (ops : RealOps) (img : QImage) (s : GelSettings) (ov : ManualOverrides),
    ∀ lane ∈ processGelImage ops img s ov,
      (∀ b ∈ lane.bands, b.volume = profileSumZ lane.netProfile b.yStart b.yEnd) ∧
      (∀ b ∈ (findBandsAndSmears ops lane.netProfile lane.index s).bands,
        ∃ i, i < (gaussiansOf lane.netProfile s).length ∧
          b.volume = softVolume ops (gaussiansOf lane.netProfile s) s.noiseTolerance
            lane.netProfile i) := by
  intro ops img s ov lane hlane
  obtain ⟨li, rect, hrect, rfl⟩ := mem_processGelImage ops img s ov lane hlane
  constructor
  · intro b hb
    exact (buildLane_bands_volume ops (croppedDataOf img s) (cropWOf img s).toNat
      (cropXOf img s) (cropYOf img s) s ov li rect b hb).1
  · intro b hb
    rw [findBandsAndSmears_bands, mem_stableSort] at hb
    rw [detectedBands, List.mem_map] at hb
    obtain ⟨i, hi, rfl⟩ := hb
    rw [List.mem_range] at hi
    exact ⟨i, hi, rfl⟩

/-- Claim C1 (witness): the concrete band of the one-lane image reports
exactly the window sum of its lane's net profile. -/
theorem c1_amended_witness :
    (((processGelImage opsU img1 sA ov0).getD 0 dLane).bands.getD 0 dBand).volume =
      profileSumZ ((processGelImage opsU img1 sA ov0).getD 0 dLane).netProfile
        (((processGelImage opsU img1 sA ov0).getD 0 dLane).bands.getD 0 dBand).yStart
        (((processGelImage opsU img1 sA ov0).getD 0 dLane).bands.getD 0 dBand).yEnd :=
  (c1_amended opsU img1 sA ov0 ((processGelImage opsU img1 sA ov0).getD 0 dLane)
    (by decide)).1 (((processGelImage opsU img1 sA ov0).getD 0 dLane).bands.getD 0 dBand)
    (by decide)

/-- Claim C2 (counterexample): the claim asserts
`0 ≤ yStart ≤ yPeak ≤ yEnd < len(netProfile)` for every returned band,
including manual ones.  A caller-supplied manual band's `yPeak` is never
clamped: adding a manual band with `yPeak = 500` to a 2-row lane returns a
band with `yPeak = 500 > yEnd = 1`. -/
theorem c2_counterexample :
    ¬ (∀ (ops : RealOps) (img : QImage) (s : GelSettings) (ov : ManualOverrides),
        ∀ lane ∈ processGelImage ops img s ov, ∀ b ∈ lane.bands,
          0 ≤ b.yStart ∧ b.yStart ≤ b.yPeak ∧ b.yPeak ≤ b.yEnd ∧
            b.yEnd < (lane.netProfile.length : ℤ) ∧ 0 ≤ b.volume) := by
  intro hcl
  have h := hcl opsU img0 sA ovC2 ((processGelImage opsU img0 sA ovC2).getD 0 dLane)
    (by decide) (((processGelImage opsU img0 sA ovC2).getD 0 dLane).bands.getD 0 dBand)
    (by decide)
  exact absurd h.2.2.1 (by decide)

/-- Claim C2 (amended): every returned band has nonnegative volume; and
when the overrides carry no manual bands and no boundary adjustments, every
returned band (necessarily detected) satisfies
`0 ≤ yStart ≤ yPeak ≤ yEnd < len(netProfile)`.  Manual bands and boundary
adjustments can break the ordering because `yPeak` is never clamped. -/
theorem c2_amended : ∀ (ops : RealOps) (img : QImage) (s : GelSettings) (ov : ManualOverrides),
    ∀ lane ∈ processGelImage ops img s ov, ∀ b ∈ lane.bands,
      0 ≤ b.volume ∧
      ((∀ n, ov.userBands n = []) → (∀ bid, ov.bandAdjustments bid = Option.none) →
        0 ≤ b.yStart ∧ b.yStart ≤ b.yPeak ∧ b.yPeak ≤ b.yEnd ∧
          b.yEnd < (lane.netProfile.length : ℤ)) := by
  intro ops img s ov lane hlane b hb
  obtain ⟨li, rect, hrect, rfl⟩ := mem_processGelImage ops img s ov lane hlane
  obtain ⟨hvol, hnn, b0, hb0, hys, hyp, hye, hman⟩ :=
    buildLane_bands_volume ops (croppedDataOf img s) (cropWOf img s).toNat (cropXOf img s)
      (cropYOf img s) s ov li rect b hb
  refine ⟨hnn, ?_⟩
  intro hub hadj
  obtain ⟨b1, hb1, hys1, hyp1, hye1, hman1⟩ :=
    laneAdjustedBands_coords ops (croppedDataOf img s) (cropWOf img s).toNat s ov li rect
      hadj b0 hb0
  have hdet := laneSortedBands_noManual ops (croppedDataOf img s) (cropWOf img s).toNat s ov
    li rect (hub li) b1 hb1
  have hinv := detectedBands_invariant ops
    (laneNetProfile ops (croppedDataOf img s) (cropWOf img s).toNat rect s) li s b1 hdet
  have hnet : (buildLane ops (croppedDataOf img s) (cropWOf img s).toNat (cropXOf img s)
      (cropYOf img s) s ov li rect).netProfile =
      laneNetProfile ops (croppedDataOf img s) (cropWOf img s).toNat rect s := rfl
  rw [hnet, hys, hyp, hye, hys1, hyp1, hye1]
  exact ⟨hinv.2.1, hinv.2.2.1, hinv.2.2.2.1, hinv.2.2.2.2⟩

/-- Claim C2 (witness): the detected band of the one-lane image satisfies
the full ordering invariant. -/
theorem c2_amended_witness :
    0 ≤ (((processGelImage opsU img1 sA ov0).getD 0 dLane).bands.getD 0 dBand).yStart ∧
    (((processGelImage opsU img1 sA ov0).getD 0 dLane).bands.getD 0 dBand).yStart ≤
      (((processGelImage opsU img1 sA ov0).getD 0 dLane).bands.getD 0 dBand).yPeak ∧
    (((processGelImage opsU img1 sA ov0).getD 0 dLane).bands.getD 0 dBand).yPeak ≤
      (((processGelImage opsU img1 sA ov0).getD 0 dLane).bands.getD 0 dBand).yEnd ∧
    (((processGelImage opsU img1 sA ov0).getD 0 dLane).bands.getD 0 dBand).yEnd <
      (((processGelImage opsU img1 sA ov0).getD 0 dLane).netProfile.length : ℤ) :=
  (c2_amended opsU img1 sA ov0 ((processGelImage opsU img1 sA ov0).getD 0 dLane) (by decide)
    (((processGelImage opsU img1 sA ov0).getD 0 dLane).bands.getD 0 dBand) (by decide)).2
    (fun _ => rfl) (fun _ => rfl)

/-- Claim C5: every returned lane's integrity score lies in `[0, 100]`;
it equals `banded / (banded + degradation) * 100` when a main band exists
and the denominator is positive, it is 0 when the denominator is 0 or no
main band exists, and with no main band the whole lane volume is reported
as degradation (and the banded volume is 0). -/
theorem c5_integrity :
    (∀ (ops : RealOps) (img : QImage) (s : GelSettings) (ov : ManualOverrides),
      ∀ lane ∈ processGelImage ops img s ov,
        0 ≤ lane.integrityScore ∧ lane.integrityScore ≤ 100 ∧
        (lane.mainBandVolume + lane.degradationVolume = 0 → lane.integrityScore = 0)) ∧
    (∀ (ops : RealOps) (data : List ℚ) (width : ℕ) (cX cY : ℤ) (s : GelSettings)
        (ov : ManualOverrides) (li : ℕ) (rect : Rect),
      (laneMainBandOf ops data width s ov li rect = Option.none →
        (buildLane ops data width cX cY s ov li rect).integrityScore = 0 ∧
        (buildLane ops data width cX cY s ov li rect).degradationVolume =
          (buildLane ops data width cX cY s ov li rect).totalLaneVolume ∧
        (buildLane ops data width cX cY s ov li rect).mainBandVolume = 0) ∧
      ((laneMainBandOf ops data width s ov li rect).isSome = true →
        0 < (buildLane ops data width cX cY s ov li rect).mainBandVolume +
          (buildLane ops data width cX cY s ov li rect).degradationVolume →
        (buildLane ops data width cX cY s ov li rect).integrityScore =
          (buildLane ops data width cX cY s ov li rect).mainBandVolume /
            ((buildLane ops data width cX cY s ov li rect).mainBandVolume +
             (buildLane ops data width cX cY s ov li rect).degradationVolume) * 100)) := by
  constructor
  · intro ops img s ov lane hlane
    obtain ⟨li, rect, hrect, rfl⟩ := mem_processGelImage ops img s ov lane hlane
    have hsc := laneScore_nonneg_le ops (croppedDataOf img s) (cropWOf img s).toNat s ov li rect
    refine ⟨hsc.1, hsc.2, ?_⟩
    intro hzero
    exact laneScore_zero_of_sum_zero ops (croppedDataOf img s) (cropWOf img s).toNat s ov
      li rect hzero
  · intro ops data width cX cY s ov li rect
    constructor
    · intro hnone
      have hpair := laneVolumePair_none ops data width s ov li rect hnone
      refine ⟨?_, ?_, ?_⟩
      · show laneScore ops data width s ov li rect = 0
        rw [laneScore, if_neg]
        intro hcond
        rw [hnone] at hcond
        exact absurd hcond.2 (by simp)
      · show (laneVolumePair ops data width s ov li rect).2 =
          (laneNetProfile ops data width rect s).foldl (fun a b => a + b) 0
        rw [hpair]
      · show (laneVolumePair ops data width s ov li rect).1 = 0
        rw [hpair]
    · intro hsome hpos
      show laneScore ops data width s ov li rect = _
      rw [laneScore, if_pos ⟨hpos, hsome⟩]
      rfl

/-- Claim C5 (witness): on a concrete one-lane image the score lies in
`[0, 100]`. -/
theorem c5_witness :
    0 ≤ ((processGelImage opsU img1 sA ov0).getD 0 dLane).integrityScore ∧
    ((processGelImage opsU img1 sA ov0).getD 0 dLane).integrityScore ≤ 100 :=
  ⟨(c5_integrity.1 opsU img1 sA ov0 ((processGelImage opsU img1 sA ov0).getD 0 dLane)
      (by decide)).1,
   (c5_integrity.1 opsU img1 sA ov0 ((processGelImage opsU img1 sA ov0).getD 0 dLane)
      (by decide)).2.1⟩

/-- Claim C7: when auto lane detection is disabled or yields zero
rectangles (and the crop is nonempty), `processGelImage` produces exactly
`numLanes` lanes whose rectangles form the uniform grid: equal widths
`floor(laneWidth * (1 - laneMargin / 100))`, x-offsets
`floor(i * laneWidth + marginPx)` (centered margin), spanning the full
cropped height. -/
theorem c7_fallback_grid : ∀ (ops : RealOps) (img : QImage) (s : GelSettings)
    (ov : ManualOverrides),
    0 < cropWOf img s → 0 < cropHOf img s →
    (s.autoDetectLanes = false ∨ autoRectsOf ops img s = []) →
    (processGelImage ops img s ov).length = s.numLanes ∧
    (∀ i, i < s.numLanes →
      ((processGelImage ops img s ov).getD i dLane).rect =
        { x := ((fallbackRects (cropWOf img s).toNat (cropHOf img s).toNat s).getD i dRect).x +
            cropXOf img s,
          y := cropYOf img s,
          width := Int.floor ((((cropWOf img s).toNat : ℚ) / (s.numLanes : ℚ)) *
            (1 - s.laneMargin / 100)),
          height := ((cropHOf img s).toNat : ℤ) } ∧
      ((fallbackRects (cropWOf img s).toNat (cropHOf img s).toNat s).getD i dRect).x =
        Int.floor ((i : ℚ) * (((cropWOf img s).toNat : ℚ) / (s.numLanes : ℚ)) +
          ((((cropWOf img s).toNat : ℚ) / (s.numLanes : ℚ)) -
           (((cropWOf img s).toNat : ℚ) / (s.numLanes : ℚ)) * (1 - s.laneMargin / 100)) / 2)) := by
  intro ops img s ov hw hh hcond
  have hrects : laneRectsOf ops img s =
      fallbackRects (cropWOf img s).toNat (cropHOf img s).toNat s := by
    rw [laneRectsOf, if_pos hcond]
  have hneg : ¬(cropWOf img s ≤ 0 ∨ cropHOf img s ≤ 0) := by omega
  have hlen : (laneRectsOf ops img s).length = s.numLanes := by
    rw [hrects]
    simp [fallbackRects]
  constructor
  · rw [processGelImage, if_neg hneg]
    simp only [List.length_map, List.length_range]
    exact hlen
  · intro i hi
    constructor
    · rw [processGelImage, if_neg hneg]
      rw [getD_map_range _ _ i dLane (by rw [hlen]; exact hi)]
      rw [buildLane_rect, hrects, fallbackRects_getD _ _ _ i hi]
      simp
    · rw [fallbackRects_getD _ _ _ i hi]

/-- Claim C7 (witness): on the one-lane image with auto detection off,
exactly `numLanes = 1` lane is returned. -/
theorem c7_witness : (processGelImage opsU img1 sA ov0).length = sA.numLanes :=
  (c7_fallback_grid opsU img1 sA ov0 (by decide) (by decide) (Or.inl rfl)).1

/-- Claim C8 (counterexample): the claim states that the `rawProfile`
field of a returned lane holds the per-row means of the sampled
intensities.  The source stores the Gaussian-smoothed profile in that
field instead: on a 1-by-2 image with rows 0 and 255 the returned
`rawProfile` is `[85, 170]` while the per-row means are `[0, 255]`. -/
theorem c8_counterexample :
    ¬ (∀ (ops : RealOps) (img : QImage) (s : GelSettings) (ov : ManualOverrides),
        ∀ lane ∈ processGelImage ops img s ov,
          lane.rawProfile = laneRawProfile (croppedDataOf img s) (cropWOf img s).toNat
            (unshiftRect lane.rect (cropXOf img s) (cropYOf img s)) s) := by
  intro hcl
  have := hcl opsU img8 sA ov0 ((processGelImage opsU img8 sA ov0).getD 0 dLane) (by decide)
  exact absurd this (by decide)

/-- Claim C8 (amended): the returned `rawProfile` field holds the
Gaussian-smoothed (window = `smoothing`) version of the per-row mean
profile of the lane rectangle; its length still equals the rectangle
height, as claimed. -/
theorem c8_amended : ∀ (ops : RealOps) (img : QImage) (s : GelSettings) (ov : ManualOverrides),
    ∀ lane ∈ processGelImage ops img s ov,
      lane.rawProfile = gaussianSmooth ops (laneRawProfile (croppedDataOf img s)
        (cropWOf img s).toNat (unshiftRect lane.rect (cropXOf img s) (cropYOf img s)) s)
        s.smoothing ∧
      (lane.rawProfile.length : ℤ) = lane.rect.height := by
  intro ops img s ov lane hlane
  obtain ⟨li, rect, hrect, rfl⟩ := mem_processGelImage ops img s ov lane hlane
  have hun : unshiftRect (buildLane ops (croppedDataOf img s) (cropWOf img s).toNat
      (cropXOf img s) (cropYOf img s) s ov li rect).rect (cropXOf img s) (cropYOf img s) =
      rect := by
    rw [buildLane_rect, unshiftRect]
    cases rect
    congr 1 <;> ring
  rw [hun]
  refine ⟨rfl, ?_⟩
  have h1 : (buildLane ops (croppedDataOf img s) (cropWOf img s).toNat (cropXOf img s)
      (cropYOf img s) s ov li rect).rawProfile.length =
      (laneRawProfile (croppedDataOf img s) (cropWOf img s).toNat rect s).length :=
    gaussianSmooth_length ops (laneRawProfile (croppedDataOf img s) (cropWOf img s).toNat rect s)
      s.smoothing
  have h2 : (laneRawProfile (croppedDataOf img s) (cropWOf img s).toNat rect s).length =
      rect.height.toNat := by
    simp [laneRawProfile]
  have h3 : (buildLane ops (croppedDataOf img s) (cropWOf img s).toNat (cropXOf img s)
      (cropYOf img s) s ov li rect).rect.height = rect.height := rfl
  have h4 := laneRectsOf_height ops img s rect hrect
  rw [h1, h2, h3, h4]
  omega

/-- Claim C8 (witness): on the concrete 1-by-2 image the returned
`rawProfile` equals the smoothed per-row mean profile. -/
theorem c8_amended_witness :
    ((processGelImage opsU img8 sA ov0).getD 0 dLane).rawProfile =
      gaussianSmooth opsU (laneRawProfile (croppedDataOf img8 sA) (cropWOf img8 sA).toNat
        (unshiftRect ((processGelImage opsU img8 sA ov0).getD 0 dLane).rect (cropXOf img8 sA)
          (cropYOf img8 sA)) sA) sA.smoothing :=
  (c8_amended opsU img8 sA ov0 ((processGelImage opsU img8 sA ov0).getD 0 dLane) (by decide)).1

end BKGel
